import Mathlib

/-!
# Spring functions of the LOOS elastic-network package

A shallow embedding of `Packages/ElasticNetworks/spring_functions.hpp`.

* `double` is idealised as an arbitrary linearly ordered field `R`
  (the reals in particular): no rounding, no NaN, no infinities.
* A C++ object is a record of its data members; a member function that
  mutates the object returns the new object next to its result.
* A member function that may throw returns the object after the call
  together with `Except SpringError _`, so that what a throwing call did to
  the object before the throw stays visible.
* Text written to `std::cerr` is returned as the list of messages written.
-/

namespace ENM

/-! ## Exceptions -/

/-- The two exception classes of the header; each carries its message. -/
inductive SpringError where
  | BadSpringFunction (s : String)
  | BadSpringParameter (s : String)
  deriving DecidableEq, Repr

/-! ## Collaborators declared outside the header -/

/-- The functions of the C math library reached by the spring functions
(`sqrt` through `GCoord::length`, `pow`, `exp`), taken as parameters. -/
structure Libm (R : Type) where
  sqrt : R → R
  pow : R → R → R
  exp : R → R

/-- Modelled from the spec: `loos::GCoord`, whose declaration is not among
the sources. A position or displacement is a 3-component real vector. -/
structure GCoord (R : Type) where
  x : R
  y : R
  z : R

variable {R : Type} [LinearOrderedField R]

/-- Modelled from the spec: `GCoord::length2`, the squared Euclidean length
`s2 = |d|²` of the displacement. -/
def GCoord.length2 (d : GCoord R) : R :=
  d.x * d.x + d.y * d.y + d.z * d.z

/-- Modelled from the spec: `GCoord::length`, the Euclidean length `s = |d|`,
that is the square root of `length2`. -/
def GCoord.length (m : Libm R) (d : GCoord R) : R :=
  m.sqrt d.length2

/-- Modelled from the spec: `loos::DoubleMatrix`, whose declaration is not
among the sources: a `rows` x `cols` real matrix addressed by a single linear
index into its entries. -/
structure DoubleMatrix (R : Type) where
  rows : Nat
  cols : Nat
  data : List R

/-- Modelled from the spec: the constructor `DoubleMatrix B(r, c)`; the
entries start at zero and are all overwritten by the one caller. -/
def DoubleMatrix.zeros (r c : Nat) : DoubleMatrix R :=
  { rows := r, cols := c, data := List.replicate (r * c) 0 }

/-- Modelled from the spec: the assignment `B[i] = k` through the linear
index. -/
def DoubleMatrix.assign (B : DoubleMatrix R) (i : Nat) (k : R) : DoubleMatrix R :=
  { B with data := B.data.set i k }

/-- Modelled from the spec: reading entry `i` through the linear index. -/
def DoubleMatrix.entry (B : DoubleMatrix R) (i : Nat) : Option R :=
  B.data.get? i

/-- The type `SpringFunction::Params`, a `std::vector<double>`. -/
abbrev Params (R : Type) := List R

/-- The call `q.back()`. On an empty vector it is undefined in C++; every
use below is guarded by a size check, and the model returns 0 there. -/
def Params.back (q : Params R) : R :=
  q.getLastD 0

/-- The call `q.pop_back()`. -/
def Params.pop_back (q : Params R) : Params R :=
  q.dropLast

/-! ## `SpringFunction` and `UniformSpringFunction` -/

/-- Data members of the base class `SpringFunction`. -/
structure SpringFunction where
  warned : Bool
  deriving DecidableEq, Repr

/-- The constructor `SpringFunction() : warned(false)`. -/
def SpringFunction.init : SpringFunction :=
  { warned := false }

/-- The text written to `std::cerr` by `checkConstant`; `name` is the result
of the virtual `name()`. -/
def warningText (name : String) : String :=
  "Warning- negative spring constants found in " ++ name ++ ".  Setting to 0.\n"

/-- The member `SpringFunction::checkConstant`: returns the object after the
call, what was written to `std::cerr`, and the returned value. -/
def SpringFunction.checkConstant (self : SpringFunction) (name : String) (d : R) :
    SpringFunction × List String × R :=
  if d < 0 then
    if !self.warned then
      ({ self with warned := true }, [warningText name], 0)
    else
      (self, [], 0)
  else
    (self, [], d)

/-- The loop `for (uint i=0; i<9; ++i) B[i] = k;`. -/
def fillNine (B : DoubleMatrix R) (k : R) : DoubleMatrix R :=
  (List.range 9).foldl (fun B i => B.assign i k) B

/-- The member `UniformSpringFunction::constant`, given the value `kImpl`
returned by the virtual `constantImpl(u, v, d)` and the virtual `name()`. -/
def UniformSpringFunction.constant (self : SpringFunction) (name : String) (kImpl : R) :
    SpringFunction × List String × DoubleMatrix R :=
  let r := self.checkConstant name kImpl
  (r.1, r.2.1, fillNine (DoubleMatrix.zeros 3 3) r.2.2)

/-! ## `DistanceCutoff` -/

/-- Data members of `DistanceCutoff`; `radius` holds the squared radius. -/
structure DistanceCutoff (R : Type) extends SpringFunction where
  radius : R

namespace DistanceCutoff

/-- The constructor `DistanceCutoff(const double& r) : radius(r*r)`. -/
def init (r : R) : DistanceCutoff R :=
  { SpringFunction.init with radius := r * r }

/-- The constructor `DistanceCutoff() : radius(15.0*15.0)`. -/
def initDefault : DistanceCutoff R :=
  { SpringFunction.init with radius := 15.0 * 15.0 }

def name (_self : DistanceCutoff R) : String := "DistanceCutoff"

def setParams (self : DistanceCutoff R) (p : Params R) :
    DistanceCutoff R × Except SpringError (Params R) :=
  if p.length < 1 then
    (self, .error (.BadSpringParameter "Insufficient number of spring parameters"))
  else
    let q := p
    let self := { self with radius := q.back }
    let self := { self with radius := self.radius * self.radius }
    let q := q.pop_back
    (self, .ok q)

def validParams (self : DistanceCutoff R) : Bool :=
  decide (self.radius > 0)

def paramSize (_self : DistanceCutoff R) : Nat := 1

def constantImpl (self : DistanceCutoff R) (_u _v d : GCoord R) : R :=
  let s := d.length2
  if s ≤ self.radius then 1 / s else 0

/-- The inherited `UniformSpringFunction::constant` on a `DistanceCutoff`. -/
def constant (self : DistanceCutoff R) (u v d : GCoord R) :
    DistanceCutoff R × List String × DoubleMatrix R :=
  let r := UniformSpringFunction.constant self.toSpringFunction self.name (self.constantImpl u v d)
  ({ self with toSpringFunction := r.1 }, r.2.1, r.2.2)

end DistanceCutoff

/-! ## `DistanceWeight` -/

/-- Data members of `DistanceWeight`. -/
structure DistanceWeight (R : Type) extends SpringFunction where
  power : R

namespace DistanceWeight

/-- The constructor `DistanceWeight(const double p) : power(p)`. -/
def init (p : R) : DistanceWeight R :=
  { SpringFunction.init with power := p }

/-- The constructor `DistanceWeight() : power(-2.0)`. -/
def initDefault : DistanceWeight R :=
  { SpringFunction.init with power := -2.0 }

def name (_self : DistanceWeight R) : String := "DistanceWeight"

def setParams (self : DistanceWeight R) (p : Params R) :
    DistanceWeight R × Except SpringError (Params R) :=
  if p.length < 1 then
    (self, .error (.BadSpringParameter "Insufficient number of spring parameters"))
  else
    let q := p
    let self := { self with power := q.back }
    let q := q.pop_back
    (self, .ok q)

def validParams (self : DistanceWeight R) : Bool :=
  decide (self.power < 0)

def paramSize (_self : DistanceWeight R) : Nat := 1

def constantImpl (m : Libm R) (self : DistanceWeight R) (_u _v d : GCoord R) : R :=
  let s := d.length m
  m.pow s self.power

/-- The inherited `UniformSpringFunction::constant` on a `DistanceWeight`. -/
def constant (m : Libm R) (self : DistanceWeight R) (u v d : GCoord R) :
    DistanceWeight R × List String × DoubleMatrix R :=
  let r := UniformSpringFunction.constant self.toSpringFunction self.name (self.constantImpl m u v d)
  ({ self with toSpringFunction := r.1 }, r.2.1, r.2.2)

end DistanceWeight

/-! ## `ExponentialDistance` -/

/-- Data members of `ExponentialDistance`. -/
structure ExponentialDistance (R : Type) extends SpringFunction where
  scale : R

namespace ExponentialDistance

/-- The constructor `ExponentialDistance(const double s) : scale(s)`. -/
def init (s : R) : ExponentialDistance R :=
  { SpringFunction.init with scale := s }

/-- The constructor `ExponentialDistance() : scale(-1.5)`. -/
def initDefault : ExponentialDistance R :=
  { SpringFunction.init with scale := -1.5 }

def name (_self : ExponentialDistance R) : String := "ExponentialDistance"

def setParams (self : ExponentialDistance R) (p : Params R) :
    ExponentialDistance R × Except SpringError (Params R) :=
  if p.length < 1 then
    (self, .error (.BadSpringParameter "Insufficient number of spring parameters"))
  else
    let q := p
    let self := { self with scale := q.back }
    let q := q.pop_back
    (self, .ok q)

def validParams (self : ExponentialDistance R) : Bool :=
  decide (self.scale ≠ 0)

def paramSize (_self : ExponentialDistance R) : Nat := 1

def constantImpl (m : Libm R) (self : ExponentialDistance R) (_u _v d : GCoord R) : R :=
  let s := d.length m
  m.exp (self.scale * s)

/-- The inherited `UniformSpringFunction::constant` on an
`ExponentialDistance`. -/
def constant (m : Libm R) (self : ExponentialDistance R) (u v d : GCoord R) :
    ExponentialDistance R × List String × DoubleMatrix R :=
  let r := UniformSpringFunction.constant self.toSpringFunction self.name (self.constantImpl m u v d)
  ({ self with toSpringFunction := r.1 }, r.2.1, r.2.2)

end ExponentialDistance

/-! ## `HCA` -/

/-- Data members of `HCA`. -/
structure HCA (R : Type) extends SpringFunction where
  rcut : R
  k1 : R
  k2 : R
  k3 : R
  k4 : R

namespace HCA

/-- The constructor `HCA(rc, a, b, c, d) : rcut(rc), k1(a), k2(b), k3(c), k4(d)`. -/
def init (rc a b c d : R) : HCA R :=
  { SpringFunction.init with rcut := rc, k1 := a, k2 := b, k3 := c, k4 := d }

/-- The constructor `HCA() : rcut(4.0), k1(205.5), k2(571.2), k3(305.9e3), k4(6.0)`. -/
def initDefault : HCA R :=
  { SpringFunction.init with rcut := 4.0, k1 := 205.5, k2 := 571.2, k3 := 305.9e3, k4 := 6.0 }

def name (_self : HCA R) : String := "HCA"

def setParams (self : HCA R) (p : Params R) : HCA R × Except SpringError (Params R) :=
  if p.length < 5 then
    (self, .error (.BadSpringParameter "Insufficient number of spring parameters"))
  else
    let q := p
    let self := { self with k4 := q.back }
    let q := q.pop_back
    let self := { self with k3 := q.back }
    let q := q.pop_back
    let self := { self with k2 := q.back }
    let q := q.pop_back
    let self := { self with k1 := q.back }
    let q := q.pop_back
    let self := { self with rcut := q.back }
    let q := q.pop_back
    (self, .ok q)

def validParams (self : HCA R) : Bool :=
  decide (self.rcut ≥ 0) && decide (self.k4 ≥ 0)

def paramSize (_self : HCA R) : Nat := 5

def constantImpl (m : Libm R) (self : HCA R) (_u _v d : GCoord R) : R :=
  let s := d.length m
  if s ≤ self.rcut then
    self.k1 * s - self.k2
  else
    self.k3 * m.pow s (-self.k4)

/-- The inherited `UniformSpringFunction::constant` on an `HCA`. -/
def constant (m : Libm R) (self : HCA R) (u v d : GCoord R) :
    HCA R × List String × DoubleMatrix R :=
  let r := UniformSpringFunction.constant self.toSpringFunction self.name (self.constantImpl m u v d)
  ({ self with toSpringFunction := r.1 }, r.2.1, r.2.2)

end HCA

/-! ## `ConstBonded` -/

/-- Data members of `ConstBonded`. -/
structure ConstBonded (R : Type) extends SpringFunction where
  scale : R

namespace ConstBonded

/-- The constructor `ConstBonded(const double& s) : scale(s)`. -/
def init (s : R) : ConstBonded R :=
  { SpringFunction.init with scale := s }

/-- The constructor `ConstBonded() : scale(1)`. -/
def initDefault : ConstBonded R :=
  { SpringFunction.init with scale := 1 }

def name (_self : ConstBonded R) : String := "ConstBonded"

def setParams (self : ConstBonded R) (p : Params R) :
    ConstBonded R × Except SpringError (Params R) :=
  if p.length < 1 then
    (self, .error (.BadSpringParameter "Insufficient number of spring parameters"))
  else
    let q := p
    let self := { self with scale := q.back }
    let q := q.pop_back
    (self, .ok q)

def validParams (self : ConstBonded R) : Bool :=
  decide (self.scale > 0)

def paramSize (_self : ConstBonded R) : Nat := 1

def constantImpl (self : ConstBonded R) (_u _v _d : GCoord R) : R :=
  self.scale

/-- The inherited `UniformSpringFunction::constant` on a `ConstBonded`. -/
def constant (self : ConstBonded R) (u v d : GCoord R) :
    ConstBonded R × List String × DoubleMatrix R :=
  let r := UniformSpringFunction.constant self.toSpringFunction self.name (self.constantImpl u v d)
  ({ self with toSpringFunction := r.1 }, r.2.1, r.2.2)

end ConstBonded

/-! ## Dynamic dispatch over the five uniform laws -/

/-- An object of one of the five concrete classes, as seen through a
`SpringFunction*`. -/
inductive Spring (R : Type) where
  | distanceCutoff (s : DistanceCutoff R)
  | distanceWeight (s : DistanceWeight R)
  | exponentialDistance (s : ExponentialDistance R)
  | hca (s : HCA R)
  | constBonded (s : ConstBonded R)

namespace Spring

/-- The base-class part of the object. -/
def base : Spring R → SpringFunction
  | distanceCutoff s => s.toSpringFunction
  | distanceWeight s => s.toSpringFunction
  | exponentialDistance s => s.toSpringFunction
  | hca s => s.toSpringFunction
  | constBonded s => s.toSpringFunction

/-- The bound constants of the object, in declaration order. -/
def constants : Spring R → List R
  | distanceCutoff s => [s.radius]
  | distanceWeight s => [s.power]
  | exponentialDistance s => [s.scale]
  | hca s => [s.rcut, s.k1, s.k2, s.k3, s.k4]
  | constBonded s => [s.scale]

/-- Virtual `name()`. -/
def name : Spring R → String
  | distanceCutoff s => s.name
  | distanceWeight s => s.name
  | exponentialDistance s => s.name
  | hca s => s.name
  | constBonded s => s.name

/-- Virtual `paramSize()`. -/
def paramSize : Spring R → Nat
  | distanceCutoff s => s.paramSize
  | distanceWeight s => s.paramSize
  | exponentialDistance s => s.paramSize
  | hca s => s.paramSize
  | constBonded s => s.paramSize

/-- Virtual `validParams()`. -/
def validParams : Spring R → Bool
  | distanceCutoff s => s.validParams
  | distanceWeight s => s.validParams
  | exponentialDistance s => s.validParams
  | hca s => s.validParams
  | constBonded s => s.validParams

/-- Virtual `setParams()`. -/
def setParams : Spring R → Params R → Spring R × Except SpringError (Params R)
  | distanceCutoff s, p => ((s.setParams p).1 |> distanceCutoff, (s.setParams p).2)
  | distanceWeight s, p => ((s.setParams p).1 |> distanceWeight, (s.setParams p).2)
  | exponentialDistance s, p => ((s.setParams p).1 |> exponentialDistance, (s.setParams p).2)
  | hca s, p => ((s.setParams p).1 |> hca, (s.setParams p).2)
  | constBonded s, p => ((s.setParams p).1 |> constBonded, (s.setParams p).2)

/-- Virtual (private) `constantImpl()`. -/
def constantImpl (m : Libm R) : Spring R → GCoord R → GCoord R → GCoord R → R
  | distanceCutoff s, u, v, d => s.constantImpl u v d
  | distanceWeight s, u, v, d => s.constantImpl m u v d
  | exponentialDistance s, u, v, d => s.constantImpl m u v d
  | hca s, u, v, d => s.constantImpl m u v d
  | constBonded s, u, v, d => s.constantImpl u v d

/-- Virtual `constant()`. -/
def constant (m : Libm R) :
    Spring R → GCoord R → GCoord R → GCoord R → Spring R × List String × DoubleMatrix R
  | distanceCutoff s, u, v, d =>
      ((s.constant u v d).1 |> distanceCutoff, (s.constant u v d).2)
  | distanceWeight s, u, v, d =>
      ((s.constant m u v d).1 |> distanceWeight, (s.constant m u v d).2)
  | exponentialDistance s, u, v, d =>
      ((s.constant m u v d).1 |> exponentialDistance, (s.constant m u v d).2)
  | hca s, u, v, d =>
      ((s.constant m u v d).1 |> hca, (s.constant m u v d).2)
  | constBonded s, u, v, d =>
      ((s.constant u v d).1 |> constBonded, (s.constant u v d).2)

end Spring


/-! ## Sequences of calls on one object -/

/-- One call of the public interface that a client makes on a law object. -/
inductive Call (R : Type) where
  | constant (u v d : GCoord R)
  | setParams (p : Params R)

/-- What a call hands back: the tensor of `constant()`, or the returned
parameters (or the exception) of `setParams()`. -/
inductive Reply (R : Type) where
  | tensor (B : DoubleMatrix R)
  | params (r : Except SpringError (Params R))

/-- The object performs one call: the object afterwards, the text written
to `std::cerr` during the call, and the reply. -/
def Spring.call (m : Libm R) (s : Spring R) : Call R → Spring R × List String × Reply R
  | .constant u v d =>
      ((s.constant m u v d).1, (s.constant m u v d).2.1, .tensor (s.constant m u v d).2.2)
  | .setParams p =>
      ((s.setParams p).1, [], .params (s.setParams p).2)

/-- The object performs the calls of a list one after the other: the object
at the end, and for each call what it wrote to `std::cerr` and its reply. -/
def Spring.run (m : Libm R) (s : Spring R) :
    List (Call R) → Spring R × List (List String × Reply R)
  | [] => (s, [])
  | c :: cs =>
      ((Spring.run m (s.call m c).1 cs).1, (s.call m c).2 :: (Spring.run m (s.call m c).1 cs).2)

/-- The object as it is just before call number `i` of the list (counting
from 0). -/
def Spring.before (m : Libm R) (s : Spring R) (calls : List (Call R)) (i : Nat) : Spring R :=
  (s.run m (calls.take i)).1

/-- Whether a call is a `constant()` call whose `constantImpl` value, on the
object `t` that receives it, is negative. -/
def Call.negativeOn (m : Libm R) (t : Spring R) : Call R → Bool
  | .constant u v d => decide (t.constantImpl m u v d < 0)
  | .setParams _ => false

/-- Whether call number `i` of the list is a `constant()` call whose
`constantImpl` value is negative on the object as it is then. -/
def Spring.negativeAt (m : Libm R) (s : Spring R) (calls : List (Call R)) (i : Nat) : Bool :=
  match calls[i]? with
  | some c => c.negativeOn m (s.before m calls i)
  | none => false

/-- The number of warnings in the record of a run. -/
def warningCount (out : List (List String × Reply R)) : Nat :=
  (out.map fun o => o.1.length).sum

/-! ## The documented form of the `DistanceCutoff` law -/

/-- The spring constant as the documentation comment of class
`DistanceCutoff` states it, for the cutoff `rc` and the distance `r` between
the nodes: `r^{-2}` for `r <= rc` and `0` for `r > rc`. -/
def DistanceCutoff.documented (rc r : R) : R :=
  if r ≤ rc then 1 / r ^ 2 else 0

/-! ## The documented form of the `HCA` law -/

/-- The spring constant as the documentation comment of class `HCA` states
it, for constants `(rc, a, b, c, d)` and distance `r`: `a r + b` for `r < rc`
and `c r^{-d}` for `r >= rc`. -/
def HCA.documented (m : Libm R) (rc a b c d r : R) : R :=
  if r < rc then a * r + b else c * m.pow r (-d)

/-! ## The three distance laws -/

/-- Whether the object is a `DistanceCutoff`, a `DistanceWeight` or an
`ExponentialDistance`. -/
def Spring.isDistanceLaw : Spring R → Bool
  | .distanceCutoff _ => true
  | .distanceWeight _ => true
  | .exponentialDistance _ => true
  | .hca _ => false
  | .constBonded _ => false

/-! ## Factory -/

/-- Modelled from the spec: `springNames()`, declared in the header and
defined outside the sources. It returns the enumerated set of canonical
names, one per law; the canonical name of a law is what its `name()` returns
(`name()` "must match exactly one registry key"). -/
def springNames : List String :=
  ["DistanceCutoff", "DistanceWeight", "ExponentialDistance", "HCA", "ConstBonded"]

/-- Modelled from the spec: `springFactory()`, declared in the header and
defined outside the sources. It looks the name up by exact string match in
the enumerated set and returns a newly constructed instance with default
constants, or fails with `BadSpringFunction` naming the invalid input. -/
def springFactory (spring_desc : String) : Except SpringError (Spring R) :=
  if spring_desc = "DistanceCutoff" then .ok (.distanceCutoff DistanceCutoff.initDefault)
  else if spring_desc = "DistanceWeight" then .ok (.distanceWeight DistanceWeight.initDefault)
  else if spring_desc = "ExponentialDistance" then
    .ok (.exponentialDistance ExponentialDistance.initDefault)
  else if spring_desc = "HCA" then .ok (.hca HCA.initDefault)
  else if spring_desc = "ConstBonded" then .ok (.constBonded ConstBonded.initDefault)
  else .error (.BadSpringFunction ("Bad spring function name: " ++ spring_desc))

/-- The 3x3 tensor all of whose nine entries are `k`. -/
def uniformTensor (k : R) : DoubleMatrix R :=
  { rows := 3, cols := 3, data := List.replicate 9 k }


end ENM

/-! # Hybrid-36 numbers (`utils.cpp`)

A shallow embedding of `parseStringAsHybrid36` and `hybrid36AsString`.

* A `std::string` is the list of its characters, all taken to be ASCII.
* `int` is modelled by the integers: for a width `n <= 5` and an argument that
  fits an `int`, no operation of the two functions leaves the range of `int`;
  on the positive operands that occur, `/` and `%` agree with those of C++.
* `uint` is a natural number below `2^32`, decremented modulo `2^32`.
* A read outside one of the two tables is undefined in C++; the model stops
  there and reports the table and the index.
-/

namespace loos

/-- How a call can end other than by returning: one of the exceptions thrown
(`std::logic_error`, `std::runtime_error`, the `std::out_of_range` of
`substr`), or a read outside a table. -/
inductive UtilsError where
  | logic_error (what : String)
  | runtime_error (what : String)
  | out_of_range (what : String)
  | out_of_bounds (table : String) (index : Nat)
  deriving DecidableEq, Repr

/-- The table `int pow10[6]`. -/
def pow10 : List Int := [1, 10, 100, 1000, 10000, 100000]

/-- The table `int pow36[6]`. -/
def pow36 : List Int := [1, 36, 1296, 46656, 1679616, 60466176]

/-- The value of `n - 1` for a `uint` `n`: at 0 it wraps around to
`2^32 - 1`. -/
def uintPred (n : Nat) : Nat :=
  if n = 0 then 4294967295 else n - 1

/-- The character `*si` under a string iterator; at `s.end()` this is the
terminating null character that a `std::string` keeps after its last
character. -/
def deref (si : List Char) : Int :=
  match si with
  | [] => 0
  | c :: _ => c.toNat

/-- The loop `for (;si != s.end() && *si == ' '; ++si, --n) ;` of
`parseStringAsHybrid36`: the iterator and `n` after it. -/
def skipLeadingWhitespace : List Char → Nat → List Char × Nat
  | [], n => ([], n)
  | c :: rest, n =>
    if c = ' ' then skipLeadingWhitespace rest (uintPred n) else (c :: rest, n)

/-- The value `(*si >= cbase) ? *si-cbase+10 : *si-'0'` that the parsing
loop gives to the character `ch`. -/
def charValue (cbase : Int) (ch : Char) : Int :=
  if (ch.toNat : Int) ≥ cbase then (ch.toNat : Int) - cbase + 10
  else (ch.toNat : Int) - '0'.toNat

/-- The loop `while (si != s.end()) {...}` of `parseStringAsHybrid36`,
started with `result`. -/
def parseLoop (cbase : Int) (ibase : Int) : List Char → Int → Int
  | [], result => result
  | ch :: rest, result =>
    let c : Int := charValue cbase ch
    parseLoop cbase ibase rest (result * ibase + c)

/-- The end of `parseStringAsHybrid36`, from `int result = 0;` on, once
`offset`, `cbase` and `ibase` are decided. -/
def parseTail (negative : Bool) (si : List Char) (offset cbase ibase : Int) : Int :=
  let result := parseLoop cbase ibase si 0
  let result := result + offset
  if negative then -result else result

/-- The part of `parseStringAsHybrid36` from `// Decide which chunk we're
in...` on, with the iterator `si` and the count `n` as they are there. -/
def parseChunk (negative : Bool) (si : List Char) (n : Nat) : Except UtilsError Int :=
  if deref si ≥ 'a'.toNat then
    match pow10[n]? with
    | none => .error (.out_of_bounds "pow10" n)
    | some p10 =>
      match pow36[uintPred n]? with
      | none => .error (.out_of_bounds "pow36" (uintPred n))
      | some p36 => .ok (parseTail negative si (p10 + 16 * p36) 'a'.toNat 36)
  else if deref si ≥ 'A'.toNat then
    match pow10[n]? with
    | none => .error (.out_of_bounds "pow10" n)
    | some p10 =>
      match pow36[uintPred n]? with
      | none => .error (.out_of_bounds "pow36" (uintPred n))
      | some p36 => .ok (parseTail negative si (p10 - 10 * p36) 'A'.toNat 36)
  else
    .ok (parseTail negative si 0 'a'.toNat 10)

/-- The part of `parseStringAsHybrid36` from `bool negative(false);` on, `s`
being the substring taken from the source. -/
def parseSubstring (s : List Char) : Except UtilsError Int :=
  let negative := decide (deref s = '-'.toNat)
  let si := if negative then s.drop 1 else s
  let n := if negative then uintPred s.length else s.length
  let skipped := skipLeadingWhitespace si n
  parseChunk negative skipped.1 skipped.2

def parseStringAsHybrid36 (source : List Char) (pos nelem : Nat) : Except UtilsError Int :=
  let n := if nelem = 0 then (source.length + 4294967296 - pos) % 4294967296 else nelem
  if (pos + n) % 4294967296 > source.length then .ok 0
  else if n > 6 then .error (.logic_error "Requested size exceeds max")
  else if pos > source.length then .error (.out_of_range "basic_string::substr")
  else parseSubstring ((source.drop pos).take n)

/-- The character pushed by one turn of the loop of `hybrid36AsString`:
`unsigned char digit = d % ibase; digit += (digit > 9) ? coffset : '0';`. -/
def digitChar (coffset : Nat) (ibase : Int) (d : Int) : Char :=
  let digit : Nat := (d % ibase).toNat % 256
  let digit : Nat := (digit + (if digit > 9 then coffset else '0'.toNat)) % 256
  Char.ofNat digit

/-- The loop `while (d > 0) {...}` of `hybrid36AsString`, appending to
`result`; the first argument bounds the number of iterations, and `d` itself
is always enough. -/
def digitLoop (coffset : Nat) (ibase : Int) : Nat → Int → List Char → List Char
  | 0, _, result => result
  | fuel + 1, d, result =>
    if d > 0 then
      digitLoop coffset ibase fuel (d / ibase) (result ++ [digitChar coffset ibase d])
    else
      result

/-- The end of `hybrid36AsString`, from `std::string result;` on, once
`coffset`, `ibase` and the adjusted `d` are decided. -/
def emitDigits (negative : Bool) (n : Nat) (coffset : Nat) (ibase : Int) (d : Int) :
    List Char :=
  let result := digitLoop coffset ibase d.toNat d []
  let result := if negative then result ++ ['-'] else result
  let result := result ++ List.replicate (n - result.length) ' '
  result.reverse

def hybrid36AsString (d : Int) (n : Nat) : Except UtilsError (List Char) :=
  if n > 6 then .error (.logic_error "Requested size exceeds max")
  else
    match pow10[n]? with
    | none => .error (.out_of_bounds "pow10" n)
    | some n10 =>
      match pow36[uintPred n]? with
      | none => .error (.out_of_bounds "pow36" (uintPred n))
      | some n36 =>
        let cuta := n10 + n36 * 26
        let negative := decide (d < 0)
        let d := if d < 0 then -d else d
        if d ≥ n10 + 52 * n36 then .error (.runtime_error "Number out of range")
        else if d ≥ cuta then
          .ok (emitDigits negative n ('a'.toNat - 10) 36 (d - cuta + 10 * n36))
        else if d ≥ n10 then
          .ok (emitDigits negative n ('A'.toNat - 10) 36 (d - n10 + 10 * n36))
        else
          .ok (emitDigits negative n '0'.toNat 10 d)

end loos

namespace ENM

/-! ## Lemmas on the shared machinery -/

section Lemmas

variable {R : Type} [LinearOrderedField R]

theorem fillNine_zeros (k : R) :
    fillNine (DoubleMatrix.zeros 3 3) k = uniformTensor k := by
  simp [fillNine, DoubleMatrix.zeros, DoubleMatrix.assign, uniformTensor, List.range,
    List.range.loop, List.replicate]

omit [LinearOrderedField R] in
theorem uniformTensor_entry (k : R) (i : Nat) (h : i < 9) :
    (uniformTensor k).entry i = some k := by
  simp only [uniformTensor, DoubleMatrix.entry, List.get?_eq_getElem?,
    List.getElem?_replicate, if_pos h]

omit [LinearOrderedField R] in
theorem uniformTensor_entry_eq (k x : R) (i : Nat) (h : (uniformTensor k).entry i = some x) :
    x = k := by
  simp only [uniformTensor, DoubleMatrix.entry, List.get?_eq_getElem?,
    List.getElem?_replicate] at h
  split at h <;> simp_all

theorem checkConstant_value (self : SpringFunction) (name : String) (d : R) :
    (self.checkConstant name d).2.2 = max d 0 := by
  unfold SpringFunction.checkConstant
  by_cases h : d < 0
  · have h0 : max d 0 = 0 := max_eq_right h.le
    cases hw : self.warned <;> simp [h, hw, h0]
  · have h0 : max d 0 = d := max_eq_left (not_lt.mp h)
    simp [h, h0]

theorem uniform_constant_tensor (self : SpringFunction) (name : String) (k : R) :
    (UniformSpringFunction.constant self name k).2.2 = uniformTensor (max k 0) := by
  simp [UniformSpringFunction.constant, checkConstant_value, fillNine_zeros]

theorem Spring.constant_tensor (m : Libm R) (s : Spring R) (u v d : GCoord R) :
    (s.constant m u v d).2.2 = uniformTensor (max (s.constantImpl m u v d) 0) := by
  cases s <;>
    simp [Spring.constant, Spring.constantImpl, DistanceCutoff.constant,
      DistanceWeight.constant, ExponentialDistance.constant, HCA.constant,
      ConstBonded.constant, uniform_constant_tensor]

theorem back_concat (pre : Params R) (x : R) :
    Params.back (pre ++ [x]) = x := by
  simp [Params.back, List.getLastD_eq_getLast?]

omit [LinearOrderedField R] in
theorem pop_back_concat (pre : Params R) (x : R) :
    Params.pop_back (pre ++ [x]) = pre := by
  simp [Params.pop_back]

omit [LinearOrderedField R] in
theorem pop_back_eq_take (p : Params R) :
    Params.pop_back p = p.take (p.length - 1) := by
  simp [Params.pop_back, List.dropLast_eq_take]

omit [LinearOrderedField R] in
theorem pop_back5_eq_take (p : Params R) :
    Params.pop_back (Params.pop_back (Params.pop_back (Params.pop_back (Params.pop_back p))))
      = p.take (p.length - 5) := by
  simp only [Params.pop_back, List.dropLast_eq_take, List.take_take, List.length_take]
  congr 1
  omega

theorem hca_setParams_concat (st : HCA R) (pre : Params R) (rc a b c d : R) :
    st.setParams (pre ++ [rc, a, b, c, d])
      = ({ st with rcut := rc, k1 := a, k2 := b, k3 := c, k4 := d }, .ok pre) := by
  have e : pre ++ [rc, a, b, c, d] = ((((pre ++ [rc]) ++ [a]) ++ [b]) ++ [c]) ++ [d] := by
    simp
  have hl : ¬ (((((pre ++ [rc]) ++ [a]) ++ [b]) ++ [c]) ++ [d]).length < 5 := by
    simp only [List.length_append, List.length_singleton]
    omega
  rw [e]
  unfold HCA.setParams
  rw [if_neg hl]
  simp only [back_concat, pop_back_concat]

theorem distanceCutoff_setParams_concat (st : DistanceCutoff R) (pre : Params R) (x : R) :
    st.setParams (pre ++ [x]) = ({ st with radius := x * x }, .ok pre) := by
  simp [DistanceCutoff.setParams, back_concat, pop_back_concat]

theorem distanceWeight_setParams_concat (st : DistanceWeight R) (pre : Params R) (x : R) :
    st.setParams (pre ++ [x]) = ({ st with power := x }, .ok pre) := by
  simp [DistanceWeight.setParams, back_concat, pop_back_concat]

theorem exponentialDistance_setParams_concat (st : ExponentialDistance R) (pre : Params R)
    (x : R) : st.setParams (pre ++ [x]) = ({ st with scale := x }, .ok pre) := by
  simp [ExponentialDistance.setParams, back_concat, pop_back_concat]

theorem constBonded_setParams_concat (st : ConstBonded R) (pre : Params R) (x : R) :
    st.setParams (pre ++ [x]) = ({ st with scale := x }, .ok pre) := by
  simp [ConstBonded.setParams, back_concat, pop_back_concat]

theorem distanceCutoff_tensor (st : DistanceCutoff R) (r s : R) (u v d : GCoord R)
    (hr : st.radius = r * r) (hs : s * s = d.length2) :
    (st.constant u v d).2.2 = uniformTensor (if s ^ 2 ≤ r ^ 2 then 1 / s ^ 2 else 0) := by
  have hk : st.constantImpl u v d = if s ^ 2 ≤ r ^ 2 then 1 / s ^ 2 else 0 := by
    simp only [DistanceCutoff.constantImpl, hr, ← hs, pow_two]
  have h0 : 0 ≤ st.constantImpl u v d := by
    rw [hk]
    split
    · exact div_nonneg zero_le_one (sq_nonneg s)
    · exact le_refl 0
  simp only [DistanceCutoff.constant, uniform_constant_tensor]
  rw [max_eq_left h0, hk]

/-- What `DistanceCutoff::validParams()` tests is the member, which holds the
square of the radius handed to the constructor or to `setParams`. -/
theorem distanceCutoff_validParams_iff (r : R) (st : DistanceCutoff R) (pre : Params R) :
    ((DistanceCutoff.init r).validParams = true ↔ r * r > 0)
    ∧ ((st.setParams (pre ++ [r])).1.validParams = true ↔ r * r > 0) := by
  rw [distanceCutoff_setParams_concat]
  simp [DistanceCutoff.validParams, DistanceCutoff.init]

/-! ### One call: what is written and what happens to the warning flag -/

theorem checkConstant_cerr (self : SpringFunction) (name : String) (d : R) :
    (self.checkConstant name d).2.1
      = if d < 0 ∧ self.warned = false then [warningText name] else [] := by
  unfold SpringFunction.checkConstant
  by_cases h : d < 0 <;> cases hw : self.warned <;> simp [h, hw]

theorem checkConstant_warned (self : SpringFunction) (name : String) (d : R) :
    (self.checkConstant name d).1.warned = (self.warned || decide (d < 0)) := by
  unfold SpringFunction.checkConstant
  by_cases h : d < 0 <;> cases hw : self.warned <;> simp [h, hw]

theorem spring_constant_cerr (m : Libm R) (s : Spring R) (u v d : GCoord R) :
    (s.constant m u v d).2.1
      = if s.constantImpl m u v d < 0 ∧ s.base.warned = false then [warningText s.name]
        else [] := by
  cases s <;>
    simp only [Spring.constant, Spring.constantImpl, Spring.base, Spring.name,
      DistanceCutoff.constant, DistanceWeight.constant, ExponentialDistance.constant,
      HCA.constant, ConstBonded.constant, UniformSpringFunction.constant,
      checkConstant_cerr]

theorem spring_constant_warned (m : Libm R) (s : Spring R) (u v d : GCoord R) :
    (s.constant m u v d).1.base.warned
      = (s.base.warned || decide (s.constantImpl m u v d < 0)) := by
  cases s <;>
    simp only [Spring.constant, Spring.constantImpl, Spring.base,
      DistanceCutoff.constant, DistanceWeight.constant, ExponentialDistance.constant,
      HCA.constant, ConstBonded.constant, UniformSpringFunction.constant,
      checkConstant_warned]

theorem spring_constant_name (m : Libm R) (s : Spring R) (u v d : GCoord R) :
    (s.constant m u v d).1.name = s.name := by
  cases s <;> rfl

theorem spring_setParams_name (s : Spring R) (p : Params R) :
    (s.setParams p).1.name = s.name := by
  cases s <;> rfl

theorem spring_setParams_warned (s : Spring R) (p : Params R) :
    (s.setParams p).1.base.warned = s.base.warned := by
  cases s with
  | distanceCutoff st =>
    by_cases h : p.length < 1 <;> simp [Spring.setParams, Spring.base, DistanceCutoff.setParams, h]
  | distanceWeight st =>
    by_cases h : p.length < 1 <;> simp [Spring.setParams, Spring.base, DistanceWeight.setParams, h]
  | exponentialDistance st =>
    by_cases h : p.length < 1 <;>
      simp [Spring.setParams, Spring.base, ExponentialDistance.setParams, h]
  | hca st =>
    by_cases h : p.length < 5 <;> simp [Spring.setParams, Spring.base, HCA.setParams, h]
  | constBonded st =>
    by_cases h : p.length < 1 <;> simp [Spring.setParams, Spring.base, ConstBonded.setParams, h]

theorem spring_call_cerr (m : Libm R) (s : Spring R) (c : Call R) :
    (s.call m c).2.1
      = if c.negativeOn m s = true ∧ s.base.warned = false then [warningText s.name]
        else [] := by
  cases c with
  | constant u v d =>
    simp only [Spring.call, Call.negativeOn, spring_constant_cerr, decide_eq_true_eq]
  | setParams p =>
    simp [Spring.call, Call.negativeOn]

theorem spring_call_warned (m : Libm R) (s : Spring R) (c : Call R) :
    (s.call m c).1.base.warned = (s.base.warned || c.negativeOn m s) := by
  cases c with
  | constant u v d =>
    simp only [Spring.call, Call.negativeOn, spring_constant_warned]
  | setParams p =>
    simp [Spring.call, Call.negativeOn, spring_setParams_warned]

theorem spring_call_name (m : Libm R) (s : Spring R) (c : Call R) :
    (s.call m c).1.name = s.name := by
  cases c with
  | constant u v d => exact spring_constant_name m s u v d
  | setParams p => exact spring_setParams_name s p

theorem spring_call_reply_of_negative (m : Libm R) (s : Spring R) (c : Call R)
    (h : c.negativeOn m s = true) :
    (s.call m c).2.2 = .tensor (uniformTensor 0) := by
  cases c with
  | constant u v d =>
    simp only [Call.negativeOn, decide_eq_true_eq] at h
    simp only [Spring.call, Spring.constant_tensor, max_eq_right h.le]
  | setParams p =>
    simp [Call.negativeOn] at h

/-! ### Runs -/

theorem run_append (m : Libm R) (s : Spring R) (xs ys : List (Call R)) :
    s.run m (xs ++ ys)
      = (((s.run m xs).1.run m ys).1, (s.run m xs).2 ++ ((s.run m xs).1.run m ys).2) := by
  induction xs generalizing s with
  | nil => simp [Spring.run]
  | cons c cs ih => simp [Spring.run, ih]

theorem run_name (m : Libm R) (s : Spring R) (calls : List (Call R)) :
    (s.run m calls).1.name = s.name := by
  induction calls generalizing s with
  | nil => rfl
  | cons c cs ih => simp [Spring.run, ih, spring_call_name]

theorem before_cons (m : Libm R) (s : Spring R) (c : Call R) (cs : List (Call R)) (i : Nat) :
    s.before m (c :: cs) (i + 1) = (s.call m c).1.before m cs i := by
  simp [Spring.before, Spring.run]

theorem before_succ (m : Libm R) (s : Spring R) (calls : List (Call R)) (i : Nat) (c : Call R)
    (h : calls[i]? = some c) :
    s.before m calls (i + 1) = ((s.before m calls i).call m c).1 := by
  simp [Spring.before, List.take_succ, h, run_append, Spring.run]

theorem before_succ_of_none (m : Libm R) (s : Spring R) (calls : List (Call R)) (i : Nat)
    (h : calls[i]? = none) :
    s.before m calls (i + 1) = s.before m calls i := by
  simp [Spring.before, List.take_succ, h]

theorem run_getElem (m : Libm R) (s : Spring R) (calls : List (Call R)) (i : Nat) (c : Call R)
    (h : calls[i]? = some c) :
    (s.run m calls).2[i]? = some ((s.before m calls i).call m c).2 := by
  induction calls generalizing s i with
  | nil => simp at h
  | cons c0 cs ih =>
    cases i with
    | zero =>
      simp only [List.getElem?_cons_zero, Option.some.injEq] at h
      simp [Spring.run, Spring.before, h]
    | succ i =>
      simp only [List.getElem?_cons_succ] at h
      simp only [Spring.run, List.getElem?_cons_succ, before_cons]
      exact ih _ i h

theorem before_warned (m : Libm R) (s : Spring R) (calls : List (Call R)) (i : Nat) :
    (s.before m calls i).base.warned = true
      ↔ (s.base.warned = true ∨ ∃ j, j < i ∧ s.negativeAt m calls j = true) := by
  induction i with
  | zero => simp [Spring.before, Spring.run]
  | succ i ih =>
    have hsplit : (∃ j, j < i + 1 ∧ s.negativeAt m calls j = true)
        ↔ ((∃ j, j < i ∧ s.negativeAt m calls j = true) ∨ s.negativeAt m calls i = true) := by
      constructor
      · rintro ⟨j, hj, hn⟩
        rcases Nat.lt_succ_iff_lt_or_eq.mp hj with h | h
        · exact Or.inl ⟨j, h, hn⟩
        · exact Or.inr (h ▸ hn)
      · rintro (⟨j, hj, hn⟩ | hn)
        · exact ⟨j, Nat.lt_succ_of_lt hj, hn⟩
        · exact ⟨i, Nat.lt_succ_self i, hn⟩
    rw [hsplit, ← or_assoc, ← ih]
    cases hc : calls[i]? with
    | none =>
      rw [before_succ_of_none m s calls i hc]
      simp [Spring.negativeAt, hc]
    | some c =>
      rw [before_succ m s calls i c hc, spring_call_warned]
      simp [Spring.negativeAt, hc]

theorem run_quiet_of_warned (m : Libm R) (s : Spring R) (calls : List (Call R))
    (h : s.base.warned = true) : warningCount (s.run m calls).2 = 0 := by
  induction calls generalizing s with
  | nil => rfl
  | cons c cs ih =>
    have h1 : (s.call m c).1.base.warned = true := by
      rw [spring_call_warned, h, Bool.true_or]
    have h2 := ih (s.call m c).1 h1
    simp only [warningCount] at h2 ⊢
    simp [Spring.run, spring_call_cerr, h, h2]

theorem run_warningCount_le_one (m : Libm R) (s : Spring R) (calls : List (Call R)) :
    warningCount (s.run m calls).2 ≤ 1 := by
  induction calls generalizing s with
  | nil => simp [warningCount, Spring.run]
  | cons c cs ih =>
    by_cases hw : c.negativeOn m s = true ∧ s.base.warned = false
    · have h1 : (s.call m c).1.base.warned = true := by
        rw [spring_call_warned, hw.1, Bool.or_true]
      have h2 := run_quiet_of_warned m (s.call m c).1 cs h1
      simp only [warningCount] at h2 ⊢
      simp [Spring.run, spring_call_cerr, hw, h2]
    · have h2 := ih (s.call m c).1
      simp only [warningCount] at h2 ⊢
      simp only [Spring.run, spring_call_cerr, if_neg hw, List.map_cons, List.length_nil,
        List.sum_cons, zero_add]
      exact h2

/-! ### Rebinding, frame and sign lemmas -/

theorem spring_setParams_setParams (s : Spring R) (p1 p2 : Params R)
    (h2 : s.paramSize ≤ p2.length) :
    (s.setParams p1).1.setParams p2 = s.setParams p2 := by
  cases s with
  | distanceCutoff st =>
    have h : ¬ p2.length < 1 := by
      simpa [Spring.paramSize, DistanceCutoff.paramSize] using Nat.pos_iff_ne_zero.mp h2
    by_cases h1 : p1.length < 1 <;>
      simp [Spring.setParams, DistanceCutoff.setParams, h, h1]
  | distanceWeight st =>
    have h : ¬ p2.length < 1 := by
      simpa [Spring.paramSize, DistanceWeight.paramSize] using Nat.pos_iff_ne_zero.mp h2
    by_cases h1 : p1.length < 1 <;>
      simp [Spring.setParams, DistanceWeight.setParams, h, h1]
  | exponentialDistance st =>
    have h : ¬ p2.length < 1 := by
      simpa [Spring.paramSize, ExponentialDistance.paramSize] using Nat.pos_iff_ne_zero.mp h2
    by_cases h1 : p1.length < 1 <;>
      simp [Spring.setParams, ExponentialDistance.setParams, h, h1]
  | hca st =>
    have h : ¬ p2.length < 5 := by
      simpa [Spring.paramSize, HCA.paramSize] using h2
    by_cases h1 : p1.length < 5 <;>
      simp [Spring.setParams, HCA.setParams, h, h1]
  | constBonded st =>
    have h : ¬ p2.length < 1 := by
      simpa [Spring.paramSize, ConstBonded.paramSize] using Nat.pos_iff_ne_zero.mp h2
    by_cases h1 : p1.length < 1 <;>
      simp [Spring.setParams, ConstBonded.setParams, h, h1]

theorem spring_constant_constants (m : Libm R) (s : Spring R) (u v d : GCoord R) :
    (s.constant m u v d).1.constants = s.constants := by
  cases s <;> rfl

theorem spring_constant_isDistanceLaw (m : Libm R) (s : Spring R) (u v d : GCoord R) :
    (s.constant m u v d).1.isDistanceLaw = s.isDistanceLaw := by
  cases s <;> rfl

theorem spring_setParams_isDistanceLaw (s : Spring R) (p : Params R) :
    (s.setParams p).1.isDistanceLaw = s.isDistanceLaw := by
  cases s <;> rfl

theorem spring_call_isDistanceLaw (m : Libm R) (s : Spring R) (c : Call R) :
    (s.call m c).1.isDistanceLaw = s.isDistanceLaw := by
  cases c with
  | constant u v d => exact spring_constant_isDistanceLaw m s u v d
  | setParams p => exact spring_setParams_isDistanceLaw s p

theorem length2_nonneg (d : GCoord R) : 0 ≤ d.length2 := by
  unfold GCoord.length2
  have hx := mul_self_nonneg d.x
  have hy := mul_self_nonneg d.y
  have hz := mul_self_nonneg d.z
  linarith

theorem distanceLaw_constantImpl_nonneg (m : Libm R) (hsqrt : ∀ x : R, 0 ≤ m.sqrt x)
    (hpow : ∀ x y : R, 0 ≤ x → 0 ≤ m.pow x y) (hexp : ∀ x : R, 0 ≤ m.exp x)
    (s : Spring R) (hk : s.isDistanceLaw = true) (u v d : GCoord R) :
    0 ≤ s.constantImpl m u v d := by
  cases s with
  | distanceCutoff st =>
    simp only [Spring.constantImpl, DistanceCutoff.constantImpl]
    split
    · exact div_nonneg zero_le_one (length2_nonneg d)
    · exact le_refl 0
  | distanceWeight st =>
    exact hpow _ _ (hsqrt _)
  | exponentialDistance st =>
    exact hexp _
  | hca st => simp [Spring.isDistanceLaw] at hk
  | constBonded st => simp [Spring.isDistanceLaw] at hk

theorem distanceLaw_call_quiet (m : Libm R) (hsqrt : ∀ x : R, 0 ≤ m.sqrt x)
    (hpow : ∀ x y : R, 0 ≤ x → 0 ≤ m.pow x y) (hexp : ∀ x : R, 0 ≤ m.exp x)
    (s : Spring R) (hk : s.isDistanceLaw = true) (c : Call R) :
    c.negativeOn m s = false := by
  cases c with
  | constant u v d =>
    simp only [Call.negativeOn, decide_eq_false_iff_not, not_lt]
    exact distanceLaw_constantImpl_nonneg m hsqrt hpow hexp s hk u v d
  | setParams p => rfl

theorem distanceLaw_run_quiet (m : Libm R) (hsqrt : ∀ x : R, 0 ≤ m.sqrt x)
    (hpow : ∀ x y : R, 0 ≤ x → 0 ≤ m.pow x y) (hexp : ∀ x : R, 0 ≤ m.exp x)
    (s : Spring R) (hk : s.isDistanceLaw = true) (calls : List (Call R)) :
    (s.run m calls).1.base.warned = s.base.warned
    ∧ ∀ o, o ∈ (s.run m calls).2 → o.1 = [] := by
  induction calls generalizing s with
  | nil => simp [Spring.run]
  | cons c cs ih =>
    have hq := distanceLaw_call_quiet m hsqrt hpow hexp s hk c
    have hk1 : (s.call m c).1.isDistanceLaw = true := by
      rw [spring_call_isDistanceLaw, hk]
    have hw : (s.call m c).1.base.warned = s.base.warned := by
      rw [spring_call_warned, hq, Bool.or_false]
    have hc : (s.call m c).2.1 = [] := by
      rw [spring_call_cerr, hq]
      simp
    obtain ⟨ih1, ih2⟩ := ih (s.call m c).1 hk1
    refine ⟨by simp only [Spring.run, ih1, hw], ?_⟩
    intro o ho
    simp only [Spring.run, List.mem_cons] at ho
    rcases ho with rfl | ho
    · exact hc
    · exact ih2 o ho

theorem checkConstant_self (self : SpringFunction) (name : String) (d : R)
    (h : ¬ d < 0 ∨ self.warned = true) : (self.checkConstant name d).1 = self := by
  unfold SpringFunction.checkConstant
  rcases h with h | h
  · rw [if_neg h]
  · split
    · simp [h]
    · rfl

theorem spring_constant_eq_self (m : Libm R) (s : Spring R) (u v d : GCoord R)
    (h : ¬ s.constantImpl m u v d < 0 ∨ s.base.warned = true) :
    (s.constant m u v d).1 = s := by
  cases s <;>
    simp only [Spring.constantImpl, Spring.base] at h <;>
    simp only [Spring.constant, DistanceCutoff.constant, DistanceWeight.constant,
      ExponentialDistance.constant, HCA.constant, ConstBonded.constant,
      UniformSpringFunction.constant, checkConstant_self _ _ _ h]

theorem spring_constant_object (m : Libm R) (s : Spring R) (u v d : GCoord R) :
    (s.constant m u v d).1 = s
    ∨ (s.base.warned = false ∧ (s.constant m u v d).1.base.warned = true) := by
  by_cases hk : s.constantImpl m u v d < 0
  · cases hw : s.base.warned with
    | false =>
      right
      refine ⟨rfl, ?_⟩
      rw [spring_constant_warned, hw]
      simp [hk]
    | true => exact Or.inl (spring_constant_eq_self m s u v d (Or.inr hw))
  · exact Or.inl (spring_constant_eq_self m s u v d (Or.inl hk))

omit [LinearOrderedField R] in
theorem warningCount_eq_zero (out : List (List String × Reply R))
    (h : ∀ o, o ∈ out → o.1 = []) : warningCount out = 0 := by
  induction out with
  | nil => rfl
  | cons o os ih =>
    have h1 : o.1 = [] := h o (List.mem_cons_self o os)
    have h2 := ih (fun x hx => h x (List.mem_cons_of_mem o hx))
    simp only [warningCount] at h2 ⊢
    simp [h1, h2]

end Lemmas

/-! ## The claims -/

section Claims

variable {R : Type} [LinearOrderedField R]

/-- C1: for each of the five uniform laws, whatever its bound constants and
whatever `(u, v, d)`, the tensor returned by `constant(u, v, d)` is the 3x3
matrix whose nine entries all equal `max(k, 0)`, with `k` the value of the
law's `constantImpl(u, v, d)`; so no entry is negative. -/
theorem C1_constant_is_clamped_broadcast (m : Libm R) (s : Spring R) (u v d : GCoord R) :
    (s.constant m u v d).2.2 = uniformTensor (max (s.constantImpl m u v d) 0)
    ∧ (s.constant m u v d).2.2.rows = 3 ∧ (s.constant m u v d).2.2.cols = 3
    ∧ (s.constant m u v d).2.2.data.length = 9
    ∧ (∀ i, i < 9 →
        (s.constant m u v d).2.2.entry i = some (max (s.constantImpl m u v d) 0))
    ∧ (∀ i x, (s.constant m u v d).2.2.entry i = some x → 0 ≤ x) := by
  rw [Spring.constant_tensor]
  refine ⟨rfl, rfl, rfl, by simp [uniformTensor], ?_, ?_⟩
  · intro i hi
    exact uniformTensor_entry _ i hi
  · intro i x hx
    rw [uniformTensor_entry_eq _ x i hx]
    exact le_max_right _ _

/-- C2: for each law and each parameter list `p`, `setParams(p)` throws
exactly when `p` has fewer than `paramSize()` elements, what it throws is a
`BadSpringParameter`, and after a throwing call the object (its bound
constants and its warning flag) is what it was before the call. -/
theorem C2_setParams_fails_iff_short (s : Spring R) (p : Params R) :
    ((∃ e, (s.setParams p).2 = .error e) ↔ p.length < s.paramSize)
    ∧ (∀ e, (s.setParams p).2 = .error e →
        (∃ msg, e = SpringError.BadSpringParameter msg)
        ∧ (s.setParams p).1 = s
        ∧ (s.setParams p).1.constants = s.constants
        ∧ (s.setParams p).1.base.warned = s.base.warned) := by
  cases s with
  | distanceCutoff st =>
    by_cases h : p.length < 1 <;>
      simp [Spring.setParams, Spring.paramSize, DistanceCutoff.setParams,
        DistanceCutoff.paramSize, h]
  | distanceWeight st =>
    by_cases h : p.length < 1 <;>
      simp [Spring.setParams, Spring.paramSize, DistanceWeight.setParams,
        DistanceWeight.paramSize, h]
  | exponentialDistance st =>
    by_cases h : p.length < 1 <;>
      simp [Spring.setParams, Spring.paramSize, ExponentialDistance.setParams,
        ExponentialDistance.paramSize, h]
  | hca st =>
    by_cases h : p.length < 5 <;>
      simp [Spring.setParams, Spring.paramSize, HCA.setParams, HCA.paramSize, h]
  | constBonded st =>
    by_cases h : p.length < 1 <;>
      simp [Spring.setParams, Spring.paramSize, ConstBonded.setParams,
        ConstBonded.paramSize, h]

/-- C3: `paramSize()` is 1 for `DistanceCutoff`, `DistanceWeight`,
`ExponentialDistance` and `ConstBonded` and 5 for `HCA`; for each law and each
list `p` with at least `paramSize()` elements, `setParams(p)` returns the
first `length(p) - paramSize()` elements of `p` in their order, which is the
empty list when `length(p) = paramSize()`. -/
theorem C3_setParams_returns_prefix (R : Type) [LinearOrderedField R] :
    (∀ st : DistanceCutoff R, (Spring.distanceCutoff st).paramSize = 1)
    ∧ (∀ st : DistanceWeight R, (Spring.distanceWeight st).paramSize = 1)
    ∧ (∀ st : ExponentialDistance R, (Spring.exponentialDistance st).paramSize = 1)
    ∧ (∀ st : ConstBonded R, (Spring.constBonded st).paramSize = 1)
    ∧ (∀ st : HCA R, (Spring.hca st).paramSize = 5)
    ∧ (∀ (s : Spring R) (p : Params R), s.paramSize ≤ p.length →
        (s.setParams p).2 = .ok (p.take (p.length - s.paramSize)))
    ∧ (∀ (s : Spring R) (p : Params R), p.length = s.paramSize →
        (s.setParams p).2 = .ok []) := by
  have key : ∀ (s : Spring R) (p : Params R), s.paramSize ≤ p.length →
      (s.setParams p).2 = .ok (p.take (p.length - s.paramSize)) := by
    intro s p h
    cases s with
    | distanceCutoff st =>
      have h1 : ¬ p.length < 1 := by
        simpa [Spring.paramSize, DistanceCutoff.paramSize, Nat.lt_one_iff] using
          Nat.pos_iff_ne_zero.mp h
      simp [Spring.setParams, Spring.paramSize, DistanceCutoff.setParams,
        DistanceCutoff.paramSize, h1, pop_back_eq_take]
    | distanceWeight st =>
      have h1 : ¬ p.length < 1 := by
        simpa [Spring.paramSize, DistanceWeight.paramSize, Nat.lt_one_iff] using
          Nat.pos_iff_ne_zero.mp h
      simp [Spring.setParams, Spring.paramSize, DistanceWeight.setParams,
        DistanceWeight.paramSize, h1, pop_back_eq_take]
    | exponentialDistance st =>
      have h1 : ¬ p.length < 1 := by
        simpa [Spring.paramSize, ExponentialDistance.paramSize, Nat.lt_one_iff] using
          Nat.pos_iff_ne_zero.mp h
      simp [Spring.setParams, Spring.paramSize, ExponentialDistance.setParams,
        ExponentialDistance.paramSize, h1, pop_back_eq_take]
    | hca st =>
      have h1 : ¬ p.length < 5 := by
        simpa [Spring.paramSize, HCA.paramSize] using h
      simp [Spring.setParams, Spring.paramSize, HCA.setParams, HCA.paramSize, h1,
        pop_back5_eq_take]
    | constBonded st =>
      have h1 : ¬ p.length < 1 := by
        simpa [Spring.paramSize, ConstBonded.paramSize, Nat.lt_one_iff] using
          Nat.pos_iff_ne_zero.mp h
      simp [Spring.setParams, Spring.paramSize, ConstBonded.setParams,
        ConstBonded.paramSize, h1, pop_back_eq_take]
  refine ⟨fun _ => rfl, fun _ => rfl, fun _ => rfl, fun _ => rfl, fun _ => rfl, key, ?_⟩
  intro s p h
  rw [key s p (le_of_eq h.symm), h, Nat.sub_self, List.take_zero]

/-- C4: bind order. On a list `pre ++ [rc, a, b, c, d]`, `HCA::setParams`
returns `pre` and leaves the object with the constants of `HCA(rc, a, b, c, d)`
(the last element is the exponent), so that its `constantImpl` is `a*s - b`
for `s <= rc` and `c*pow(s, -d)` otherwise, `s` the length of the
displacement. On `pre ++ [x]` each one-constant law returns `pre` and is left
with the constant of its constructor called on `x`: `DistanceCutoff(x)` (the
member holds `x*x`), `DistanceWeight(x)`, `ExponentialDistance(x)`,
`ConstBonded(x)`. The warning flag is not touched. -/
theorem C4_setParams_bind_order (m : Libm R) (pre : Params R) :
    (∀ (st : HCA R) (rc a b c d : R),
        (st.setParams (pre ++ [rc, a, b, c, d])).2 = .ok pre
        ∧ (st.setParams (pre ++ [rc, a, b, c, d])).1
            = { HCA.init rc a b c d with warned := st.warned }
        ∧ (st.setParams (pre ++ [rc, a, b, c, d])).1.rcut = rc
        ∧ (st.setParams (pre ++ [rc, a, b, c, d])).1.k1 = a
        ∧ (st.setParams (pre ++ [rc, a, b, c, d])).1.k2 = b
        ∧ (st.setParams (pre ++ [rc, a, b, c, d])).1.k3 = c
        ∧ (st.setParams (pre ++ [rc, a, b, c, d])).1.k4 = d
        ∧ (∀ u v x : GCoord R,
            (st.setParams (pre ++ [rc, a, b, c, d])).1.constantImpl m u v x
              = if x.length m ≤ rc then a * x.length m - b
                else c * m.pow (x.length m) (-d)))
    ∧ (∀ (st : DistanceCutoff R) (x : R),
        (st.setParams (pre ++ [x])).2 = .ok pre
        ∧ (st.setParams (pre ++ [x])).1
            = { DistanceCutoff.init x with warned := st.warned }
        ∧ (st.setParams (pre ++ [x])).1.radius = x * x)
    ∧ (∀ (st : DistanceWeight R) (x : R),
        (st.setParams (pre ++ [x])).2 = .ok pre
        ∧ (st.setParams (pre ++ [x])).1
            = { DistanceWeight.init x with warned := st.warned }
        ∧ (st.setParams (pre ++ [x])).1.power = x)
    ∧ (∀ (st : ExponentialDistance R) (x : R),
        (st.setParams (pre ++ [x])).2 = .ok pre
        ∧ (st.setParams (pre ++ [x])).1
            = { ExponentialDistance.init x with warned := st.warned }
        ∧ (st.setParams (pre ++ [x])).1.scale = x)
    ∧ (∀ (st : ConstBonded R) (x : R),
        (st.setParams (pre ++ [x])).2 = .ok pre
        ∧ (st.setParams (pre ++ [x])).1
            = { ConstBonded.init x with warned := st.warned }
        ∧ (st.setParams (pre ++ [x])).1.scale = x) := by
  refine ⟨?_, ?_, ?_, ?_, ?_⟩
  · intro st rc a b c d
    rw [hca_setParams_concat]
    refine ⟨rfl, rfl, rfl, rfl, rfl, rfl, rfl, ?_⟩
    intro u v x
    rfl
  · intro st x
    rw [distanceCutoff_setParams_concat]
    exact ⟨rfl, rfl, rfl⟩
  · intro st x
    rw [distanceWeight_setParams_concat]
    exact ⟨rfl, rfl, rfl⟩
  · intro st x
    rw [exponentialDistance_setParams_concat]
    exact ⟨rfl, rfl, rfl⟩
  · intro st x
    rw [constBonded_setParams_concat]
    exact ⟨rfl, rfl, rfl⟩

/-- C5: for a `DistanceCutoff` bound to radius `r` by the constructor or by
`setParams`, and a displacement of length `s` (that is `s*s = length2(d)`),
`s` not zero, the tensor returned by `constant(u, v, d)` has every entry
`1/s^2` when `s^2 <= r^2` and `0` otherwise; the default constructor binds
`r = 15`, for which `s = 10` gives `1/100` and `s = 20` gives `0`. (At
`s = 0` the C++ divides by zero, which the total division of a field does
not represent; the statement leaves that input out.) -/
theorem C5_distanceCutoff_formula (r s : R) (u v d : GCoord R) (st0 : DistanceCutoff R)
    (pre : Params R) (hs : s * s = d.length2) (_hne : s ≠ 0) :
    ((DistanceCutoff.init r).constant u v d).2.2
        = uniformTensor (if s ^ 2 ≤ r ^ 2 then 1 / s ^ 2 else 0)
    ∧ ((st0.setParams (pre ++ [r])).1.constant u v d).2.2
        = uniformTensor (if s ^ 2 ≤ r ^ 2 then 1 / s ^ 2 else 0)
    ∧ ((DistanceCutoff.initDefault : DistanceCutoff R).constant u v d).2.2
        = uniformTensor (if s ^ 2 ≤ 15 ^ 2 then 1 / s ^ 2 else 0)
    ∧ (s = 10 → ((DistanceCutoff.initDefault : DistanceCutoff R).constant u v d).2.2
        = uniformTensor (1 / 100))
    ∧ (s = 20 → ((DistanceCutoff.initDefault : DistanceCutoff R).constant u v d).2.2
        = uniformTensor 0) := by
  have hdef : ((DistanceCutoff.initDefault : DistanceCutoff R).constant u v d).2.2
      = uniformTensor (if s ^ 2 ≤ 15 ^ 2 then 1 / s ^ 2 else 0) :=
    distanceCutoff_tensor _ 15 s u v d (by norm_num [DistanceCutoff.initDefault]) hs
  refine ⟨distanceCutoff_tensor _ r s u v d rfl hs, ?_, hdef, ?_, ?_⟩
  · rw [distanceCutoff_setParams_concat]
    exact distanceCutoff_tensor _ r s u v d rfl hs
  · intro h10
    rw [hdef, h10]
    norm_num
  · intro h20
    rw [hdef, h20]
    norm_num

/-- Witness for C5 over the rationals: default radius, displacement
`(6, 8, 0)` of length 10. -/
theorem C5_distanceCutoff_formula_witness :
    ((DistanceCutoff.initDefault : DistanceCutoff ℚ).constant ⟨0, 0, 0⟩ ⟨6, 8, 0⟩ ⟨6, 8, 0⟩).2.2
      = uniformTensor (1 / 100) :=
  (C5_distanceCutoff_formula (15 : ℚ) 10 ⟨0, 0, 0⟩ ⟨6, 8, 0⟩ ⟨6, 8, 0⟩
    DistanceCutoff.initDefault [] (by norm_num [GCoord.length2]) (by norm_num)).2.2.2.1 rfl

/-- C6: for an `HCA` object with constants `(rcut, k1, k2, k3, k4)` and a
displacement of length `s`, `constantImpl` is `k1*s - k2` when `s <= rcut`
(the boundary included) and `k3*pow(s, -k4)` when `s > rcut`. With the
default constants, `s = 4` gives `250.8` and `s = 5` gives
`305.9e3 * pow(5, -6)`, and `constant()` returns the tensor with that value in
every entry (`pow` of a positive base being non-negative). -/
theorem C6_hca_formula (m : Libm R) (hpow : ∀ x y : R, 0 < x → 0 ≤ m.pow x y)
    (st : HCA R) (u v x : GCoord R) :
    (x.length m ≤ st.rcut → st.constantImpl m u v x = st.k1 * x.length m - st.k2)
    ∧ (st.rcut < x.length m →
        st.constantImpl m u v x = st.k3 * m.pow (x.length m) (-st.k4))
    ∧ (x.length m = 4 →
        (HCA.initDefault : HCA R).constantImpl m u v x = 250.8
        ∧ ((HCA.initDefault : HCA R).constant m u v x).2.2 = uniformTensor 250.8)
    ∧ (x.length m = 5 →
        (HCA.initDefault : HCA R).constantImpl m u v x = 305.9e3 * m.pow 5 (-6)
        ∧ ((HCA.initDefault : HCA R).constant m u v x).2.2
            = uniformTensor (305.9e3 * m.pow 5 (-6))) := by
  refine ⟨?_, ?_, ?_, ?_⟩
  · intro h
    simp only [HCA.constantImpl, if_pos h]
  · intro h
    simp only [HCA.constantImpl, if_neg (not_le.mpr h)]
  · intro h
    have hk : (HCA.initDefault : HCA R).constantImpl m u v x = 250.8 := by
      simp only [HCA.constantImpl, HCA.initDefault, h]
      norm_num
    refine ⟨hk, ?_⟩
    simp only [HCA.constant, uniform_constant_tensor, hk]
    congr 1
    exact max_eq_left (by norm_num)
  · intro h
    have hk : (HCA.initDefault : HCA R).constantImpl m u v x = 305.9e3 * m.pow 5 (-6) := by
      simp only [HCA.constantImpl, HCA.initDefault, h]
      norm_num
    refine ⟨hk, ?_⟩
    simp only [HCA.constant, uniform_constant_tensor, hk]
    congr 1
    exact max_eq_left (mul_nonneg (by norm_num) (hpow 5 (-6) (by norm_num)))

/-- Witness for C6 over the reals, with the real square root, power and
exponential: default constants and displacement `(3, 4, 0)` of length 5. -/
theorem C6_hca_formula_witness :
    ((HCA.initDefault : HCA ℝ).constant ⟨Real.sqrt, fun x y => x ^ y, Real.exp⟩
        ⟨0, 0, 0⟩ ⟨3, 4, 0⟩ ⟨3, 4, 0⟩).2.2
      = uniformTensor (305.9e3 * (5 : ℝ) ^ (-6 : ℝ)) :=
  ((C6_hca_formula (⟨Real.sqrt, fun x y => x ^ y, Real.exp⟩ : Libm ℝ)
      (fun x y hx => (Real.rpow_pos_of_pos hx y).le) HCA.initDefault
      ⟨0, 0, 0⟩ ⟨3, 4, 0⟩ ⟨3, 4, 0⟩).2.2.2
    (by
      show Real.sqrt (3 * 3 + 4 * 4 + 0 * 0) = 5
      rw [show (3 * 3 + 4 * 4 + 0 * 0 : ℝ) = 5 * 5 by norm_num]
      exact Real.sqrt_mul_self (by norm_num))).2

/-- C7: one-time warning. On a law object whose warning flag is still unset
(as every constructor leaves it), any finite sequence of `constant()` and
`setParams()` calls writes at most one warning in total; call number `i`
writes the warning exactly when it is a `constant()` call whose scalar is
negative and no earlier call of the sequence was one, and writes nothing
otherwise; and every `constant()` call whose scalar is negative returns the
all-zero tensor, warning or not. -/
theorem C7_one_time_warning (m : Libm R) (s : Spring R) (calls : List (Call R))
    (hfresh : s.base.warned = false) :
    warningCount (s.run m calls).2 ≤ 1
    ∧ (∀ i, i < calls.length → ∃ cerr reply,
        (s.run m calls).2[i]? = some (cerr, reply)
        ∧ ((s.negativeAt m calls i = true ∧ ∀ j, j < i → s.negativeAt m calls j = false)
            → cerr = [warningText s.name])
        ∧ (¬ (s.negativeAt m calls i = true ∧ ∀ j, j < i → s.negativeAt m calls j = false)
            → cerr = [])
        ∧ (s.negativeAt m calls i = true → reply = .tensor (uniformTensor 0))) := by
  refine ⟨run_warningCount_le_one m s calls, ?_⟩
  intro i hi
  have hc : calls[i]? = some calls[i] := List.getElem?_eq_getElem hi
  have hneg : s.negativeAt m calls i = (calls[i]).negativeOn m (s.before m calls i) := by
    simp only [Spring.negativeAt, hc]
  have hflag : (s.before m calls i).base.warned = false
      ↔ ∀ j, j < i → s.negativeAt m calls j = false := by
    rw [← Bool.not_eq_true, before_warned, hfresh]
    simp
  have hname : (s.before m calls i).name = s.name := run_name m s (calls.take i)
  refine ⟨((s.before m calls i).call m calls[i]).2.1,
    ((s.before m calls i).call m calls[i]).2.2, run_getElem m s calls i _ hc, ?_, ?_, ?_⟩
  · intro h
    rw [spring_call_cerr, hname, if_pos ⟨hneg ▸ h.1, hflag.mpr h.2⟩]
  · intro h
    rw [spring_call_cerr, if_neg]
    intro h'
    exact h ⟨hneg ▸ h'.1, hflag.mp h'.2⟩
  · intro h
    exact spring_call_reply_of_negative m _ _ (hneg ▸ h)

/-- Witness for C7 over the reals: a default `HCA`, asked for the constant at
distance 1 (where `205.5*1 - 571.2` is negative), rebound, and asked again. -/
theorem C7_one_time_warning_witness :
    (Spring.hca (HCA.initDefault : HCA ℝ)).base.warned = false
    ∧ warningCount ((Spring.hca (HCA.initDefault : HCA ℝ)).run
        ⟨Real.sqrt, fun x y => x ^ y, Real.exp⟩
        [.constant ⟨0, 0, 0⟩ ⟨1, 0, 0⟩ ⟨1, 0, 0⟩, .setParams [4, 205.5, 571.2, 305.9e3, 6],
          .constant ⟨0, 0, 0⟩ ⟨0, 1, 0⟩ ⟨0, 1, 0⟩]).2 ≤ 1 :=
  ⟨rfl, (C7_one_time_warning ⟨Real.sqrt, fun x y => x ^ y, Real.exp⟩
    (Spring.hca (HCA.initDefault : HCA ℝ))
    [.constant ⟨0, 0, 0⟩ ⟨1, 0, 0⟩ ⟨1, 0, 0⟩, .setParams [4, 205.5, 571.2, 305.9e3, 6],
      .constant ⟨0, 0, 0⟩ ⟨0, 1, 0⟩ ⟨0, 1, 0⟩] rfl).1⟩

/-- C8, evaluated on the code: a `DistanceCutoff` given the radius `-3`, by
the constructor or by `setParams`, holds `9` in its member and answers
`validParams()` with true, although `-3 > 0` is false; and at distance 1,
which is beyond a cutoff of `-3`, its `constantImpl` is `1` where the
documented form of the law is `0`. -/
theorem C8_validParams_negative_radius :
    (DistanceCutoff.init (-3 : ℚ)).validParams = true
    ∧ ((DistanceCutoff.initDefault : DistanceCutoff ℚ).setParams [-3]).1.validParams = true
    ∧ ¬ ((DistanceCutoff.init (-3 : ℚ)).validParams = true ↔ (-3 : ℚ) > 0)
    ∧ (DistanceCutoff.init (-3 : ℚ)).radius = 9
    ∧ (DistanceCutoff.init (-3 : ℚ)).constantImpl ⟨0, 0, 0⟩ ⟨1, 0, 0⟩ ⟨1, 0, 0⟩ = 1
    ∧ DistanceCutoff.documented (-3 : ℚ) 1 = 0 := by
  rw [show ([-3] : Params ℚ) = [] ++ [-3] from rfl, distanceCutoff_setParams_concat]
  norm_num [DistanceCutoff.validParams, DistanceCutoff.init, DistanceCutoff.constantImpl,
    DistanceCutoff.documented, GCoord.length2]

/-- C9: after `setParams` has bound the constants, `validParams()` is true if
and only if the exponent is negative for `DistanceWeight`, the scale is not
zero for `ExponentialDistance`, `rc >= 0` and `d >= 0` for `HCA` (whatever
`a, b, c`), and the scale is positive for `ConstBonded`. -/
theorem C9_validParams_after_setParams (pre : Params R) :
    (∀ (st : DistanceWeight R) (p : R),
        (st.setParams (pre ++ [p])).1.validParams = true ↔ p < 0)
    ∧ (∀ (st : ExponentialDistance R) (k : R),
        (st.setParams (pre ++ [k])).1.validParams = true ↔ k ≠ 0)
    ∧ (∀ (st : HCA R) (rc a b c d : R),
        (st.setParams (pre ++ [rc, a, b, c, d])).1.validParams = true ↔ (rc ≥ 0 ∧ d ≥ 0))
    ∧ (∀ (st : ConstBonded R) (k : R),
        (st.setParams (pre ++ [k])).1.validParams = true ↔ k > 0) := by
  refine ⟨?_, ?_, ?_, ?_⟩
  · intro st p
    rw [distanceWeight_setParams_concat]
    simp [DistanceWeight.validParams]
  · intro st k
    rw [exponentialDistance_setParams_concat]
    simp [ExponentialDistance.validParams]
  · intro st rc a b c d
    rw [hca_setParams_concat]
    simp [HCA.validParams]
  · intro st k
    rw [constBonded_setParams_concat]
    simp [ConstBonded.validParams]

/-- C10: `ConstBonded` ignores geometry: for every bound scale and any two
argument triples, `constant()` gives the same result (same tensor, same
object afterwards, same output), and every entry of the tensor is the scale
when the scale is not negative. -/
theorem C10_constBonded_ignores_geometry (st : ConstBonded R)
    (u v d u' v' d' : GCoord R) :
    (st.constant u v d).2.2 = (st.constant u' v' d').2.2
    ∧ st.constant u v d = st.constant u' v' d'
    ∧ (0 ≤ st.scale → (st.constant u v d).2.2 = uniformTensor st.scale)
    ∧ (0 ≤ st.scale → ∀ i, i < 9 → (st.constant u v d).2.2.entry i = some st.scale) := by
  have ht : 0 ≤ st.scale → (st.constant u v d).2.2 = uniformTensor st.scale := by
    intro h
    simp only [ConstBonded.constant, uniform_constant_tensor, ConstBonded.constantImpl]
    rw [max_eq_left h]
  refine ⟨rfl, rfl, ht, ?_⟩
  intro h i hi
  rw [ht h]
  exact uniformTensor_entry _ i hi

/-- C11: for a `DistanceWeight` with exponent `p` and a displacement of
length `s > 0`, every entry of `constant(u, v, d)` is `pow(s, p)`; for an
`ExponentialDistance` with scale `k` and any displacement, every entry is
`exp(k*s)`; in both cases nothing is clamped and nothing is written (`pow` of
a positive base and `exp` being non-negative). -/
theorem C11_weight_and_exponential_values (m : Libm R)
    (hpow : ∀ x y : R, 0 < x → 0 ≤ m.pow x y) (hexp : ∀ x : R, 0 ≤ m.exp x)
    (sw : DistanceWeight R) (se : ExponentialDistance R) (u v d : GCoord R) :
    (0 < d.length m →
        (sw.constant m u v d).2.2 = uniformTensor (m.pow (d.length m) sw.power)
        ∧ (sw.constant m u v d).2.1 = []
        ∧ ∀ i, i < 9 → (sw.constant m u v d).2.2.entry i = some (m.pow (d.length m) sw.power))
    ∧ (se.constant m u v d).2.2 = uniformTensor (m.exp (se.scale * d.length m))
    ∧ (se.constant m u v d).2.1 = []
    ∧ (∀ i, i < 9 →
        (se.constant m u v d).2.2.entry i = some (m.exp (se.scale * d.length m))) := by
  have he : (se.constant m u v d).2.2 = uniformTensor (m.exp (se.scale * d.length m)) := by
    simp only [ExponentialDistance.constant, uniform_constant_tensor,
      ExponentialDistance.constantImpl]
    rw [max_eq_left (hexp _)]
  refine ⟨?_, he, ?_, ?_⟩
  · intro hs
    have hw : (sw.constant m u v d).2.2 = uniformTensor (m.pow (d.length m) sw.power) := by
      simp only [DistanceWeight.constant, uniform_constant_tensor,
        DistanceWeight.constantImpl]
      rw [max_eq_left (hpow _ _ hs)]
    refine ⟨hw, ?_, ?_⟩
    · simp only [DistanceWeight.constant, UniformSpringFunction.constant, checkConstant_cerr,
        DistanceWeight.constantImpl]
      rw [if_neg]
      intro h
      exact absurd h.1 (not_lt.mpr (hpow _ _ hs))
    · intro i hi
      rw [hw]
      exact uniformTensor_entry _ i hi
  · simp only [ExponentialDistance.constant, UniformSpringFunction.constant,
      checkConstant_cerr, ExponentialDistance.constantImpl]
    rw [if_neg]
    intro h
    exact absurd h.1 (not_lt.mpr (hexp _))
  · intro i hi
    rw [he]
    exact uniformTensor_entry _ i hi

/-- Witness for C11 over the reals, with the real square root, power and
exponential: the default `DistanceWeight` (exponent -2) on the displacement
`(3, 4, 0)` of length 5. -/
theorem C11_weight_and_exponential_values_witness :
    ((DistanceWeight.initDefault : DistanceWeight ℝ).constant
        ⟨Real.sqrt, fun x y => x ^ y, Real.exp⟩ ⟨0, 0, 0⟩ ⟨3, 4, 0⟩ ⟨3, 4, 0⟩).2.1 = [] :=
  ((C11_weight_and_exponential_values (⟨Real.sqrt, fun x y => x ^ y, Real.exp⟩ : Libm ℝ)
      (fun x y hx => (Real.rpow_pos_of_pos hx y).le) (fun x => (Real.exp_pos x).le)
      DistanceWeight.initDefault ExponentialDistance.initDefault
      ⟨0, 0, 0⟩ ⟨3, 4, 0⟩ ⟨3, 4, 0⟩).1
    (by
      show 0 < Real.sqrt (3 * 3 + 4 * 4 + 0 * 0)
      exact Real.sqrt_pos.mpr (by norm_num))).2.1

/-- C12: rebinding. For each law and lists `p1`, `p2` with at least
`paramSize()` elements, `setParams(p1)` followed by `setParams(p2)` leaves the
same object, and returns the same list, as `setParams(p2)` alone; hence the
same `validParams()` and the same result of any later `constant()`; and
`setParams(p1)` twice leaves what `setParams(p1)` once leaves. -/
theorem C12_setParams_rebinds (m : Libm R) (s : Spring R) (p1 p2 : Params R)
    (h1 : s.paramSize ≤ p1.length) (h2 : s.paramSize ≤ p2.length) :
    ((s.setParams p1).1.setParams p2).1 = (s.setParams p2).1
    ∧ ((s.setParams p1).1.setParams p2).2 = (s.setParams p2).2
    ∧ ((s.setParams p1).1.setParams p2).1.constants = (s.setParams p2).1.constants
    ∧ ((s.setParams p1).1.setParams p2).1.validParams = (s.setParams p2).1.validParams
    ∧ (∀ u v d : GCoord R,
        ((s.setParams p1).1.setParams p2).1.constant m u v d
          = (s.setParams p2).1.constant m u v d)
    ∧ ((s.setParams p1).1.setParams p1).1 = (s.setParams p1).1 := by
  have e2 := spring_setParams_setParams s p1 p2 h2
  have e1 := spring_setParams_setParams s p1 p1 h1
  rw [e2, e1]
  exact ⟨rfl, rfl, rfl, rfl, fun _ _ _ => rfl, rfl⟩

/-- Witness for C12 over the reals: a default `HCA` bound to
`[1, 2, 3, 4, 5]` and then to `[9, 4, 3, 2, 1, 0]`. -/
theorem C12_setParams_rebinds_witness :
    (((Spring.hca (HCA.initDefault : HCA ℝ)).setParams [1, 2, 3, 4, 5]).1.setParams
        [9, 4, 3, 2, 1, 0]).1
      = ((Spring.hca (HCA.initDefault : HCA ℝ)).setParams [9, 4, 3, 2, 1, 0]).1 :=
  (C12_setParams_rebinds ⟨Real.sqrt, fun x y => x ^ y, Real.exp⟩
    (Spring.hca (HCA.initDefault : HCA ℝ)) [1, 2, 3, 4, 5] [9, 4, 3, 2, 1, 0]
    (by decide) (by decide)).1

/-- C13: a call of `constant(u, v, d)` changes no bound constant of the
object; either the object is left as it was, or its warning flag, unset
before, is set after. A flag already set stays set. -/
theorem C13_constant_frame (m : Libm R) (s : Spring R) (u v d : GCoord R) :
    (s.constant m u v d).1.constants = s.constants
    ∧ (s.constant m u v d).1.name = s.name
    ∧ ((s.constant m u v d).1 = s
        ∨ (s.base.warned = false ∧ (s.constant m u v d).1.base.warned = true))
    ∧ (s.base.warned = true → (s.constant m u v d).1.base.warned = true) := by
  refine ⟨spring_constant_constants m s u v d, spring_constant_name m s u v d,
    spring_constant_object m s u v d, ?_⟩
  intro h
  rw [spring_constant_warned, h, Bool.true_or]

/-- C14: registry round trip. For every name in `springNames()`,
`springFactory` succeeds and the instance it returns has that name as its
`name()`; for every other string it fails with `BadSpringFunction`. -/
theorem C14_registry_round_trip (R : Type) [LinearOrderedField R] :
    (∀ n, n ∈ springNames →
        ∃ s : Spring R, springFactory n = .ok s ∧ s.name = n)
    ∧ (∀ n, n ∉ springNames →
        ∃ msg, (springFactory n : Except SpringError (Spring R))
          = .error (SpringError.BadSpringFunction msg)) := by
  constructor
  · intro n hn
    simp only [springNames, List.mem_cons, List.mem_singleton, List.not_mem_nil,
      or_false] at hn
    rcases hn with rfl | rfl | rfl | rfl | rfl
    · exact ⟨_, rfl, rfl⟩
    · exact ⟨_, rfl, rfl⟩
    · exact ⟨_, rfl, rfl⟩
    · exact ⟨_, rfl, rfl⟩
    · exact ⟨_, rfl, rfl⟩
  · intro n hn
    simp only [springNames, List.mem_cons, List.mem_singleton, List.not_mem_nil,
      or_false, not_or] at hn
    obtain ⟨h1, h2, h3, h4, h5⟩ := hn
    refine ⟨"Bad spring function name: " ++ n, ?_⟩
    simp only [springFactory, if_neg h1, if_neg h2, if_neg h3, if_neg h4, if_neg h5]

/-- C17, evaluated on the code: with the default constants and the real
square root and power, at distance 1 (below the cutoff 4) `constantImpl` is
`205.5*1 - 571.2 = -365.7`, which `constant()` clamps to 0, where the
documented form gives `205.5*1 + 571.2 = 776.7`; at distance 4, on the cutoff,
`constantImpl` is `205.5*4 - 571.2 = 250.8`, where the documented form takes
its second branch `305.9e3 * 4^(-6)`. -/
theorem C17_hca_code_against_documentation :
    (HCA.initDefault : HCA ℝ).constantImpl ⟨Real.sqrt, fun x y => x ^ y, Real.exp⟩
        ⟨0, 0, 0⟩ ⟨1, 0, 0⟩ ⟨1, 0, 0⟩ = -365.7
    ∧ HCA.documented (⟨Real.sqrt, fun x y => x ^ y, Real.exp⟩ : Libm ℝ)
        4.0 205.5 571.2 305.9e3 6.0 1 = 776.7
    ∧ ((HCA.initDefault : HCA ℝ).constant ⟨Real.sqrt, fun x y => x ^ y, Real.exp⟩
        ⟨0, 0, 0⟩ ⟨1, 0, 0⟩ ⟨1, 0, 0⟩).2.2 = uniformTensor 0
    ∧ (HCA.initDefault : HCA ℝ).constantImpl ⟨Real.sqrt, fun x y => x ^ y, Real.exp⟩
        ⟨0, 0, 0⟩ ⟨4, 0, 0⟩ ⟨4, 0, 0⟩ = 250.8
    ∧ HCA.documented (⟨Real.sqrt, fun x y => x ^ y, Real.exp⟩ : Libm ℝ)
        4.0 205.5 571.2 305.9e3 6.0 4 = 305.9e3 * (4 : ℝ) ^ (-6 : ℝ)
    ∧ (305.9e3 * (4 : ℝ) ^ (-6 : ℝ) ≠ 250.8) := by
  have l1 : GCoord.length (⟨Real.sqrt, fun x y => x ^ y, Real.exp⟩ : Libm ℝ) ⟨1, 0, 0⟩ = 1 := by
    show Real.sqrt (1 * 1 + 0 * 0 + 0 * 0) = 1
    rw [show (1 * 1 + 0 * 0 + 0 * 0 : ℝ) = 1 * 1 by norm_num]
    exact Real.sqrt_mul_self (by norm_num)
  have l4 : GCoord.length (⟨Real.sqrt, fun x y => x ^ y, Real.exp⟩ : Libm ℝ) ⟨4, 0, 0⟩ = 4 := by
    show Real.sqrt (4 * 4 + 0 * 0 + 0 * 0) = 4
    rw [show (4 * 4 + 0 * 0 + 0 * 0 : ℝ) = 4 * 4 by norm_num]
    exact Real.sqrt_mul_self (by norm_num)
  have k1 : (HCA.initDefault : HCA ℝ).constantImpl ⟨Real.sqrt, fun x y => x ^ y, Real.exp⟩
      ⟨0, 0, 0⟩ ⟨1, 0, 0⟩ ⟨1, 0, 0⟩ = -365.7 := by
    simp only [HCA.constantImpl, HCA.initDefault, l1]
    norm_num
  have p4 : (4 : ℝ) ^ (-6 : ℝ) = 1 / 4096 := by
    rw [Real.rpow_neg (by norm_num), show (6 : ℝ) = ((6 : ℕ) : ℝ) by norm_num,
      Real.rpow_natCast]
    norm_num
  refine ⟨k1, ?_, ?_, ?_, ?_, ?_⟩
  · simp only [HCA.documented]
    norm_num
  · simp only [HCA.constant, uniform_constant_tensor, k1]
    congr 1
    exact max_eq_right (by norm_num)
  · simp only [HCA.constantImpl, HCA.initDefault, l4]
    norm_num
  · simp only [HCA.documented]
    norm_num
  · rw [p4]
    norm_num

/-- C20: a `DistanceCutoff`, `DistanceWeight` or `ExponentialDistance` object,
whatever its bound constants, has a non-negative `constantImpl` on every
input, so `constant()` writes nothing; and over any sequence of calls on such
an object whose warning flag is unset, no warning is written and the flag is
still unset at the end (`sqrt`, `pow` of a non-negative base and `exp` being
non-negative). -/
theorem C20_distance_laws_never_warn (m : Libm R) (hsqrt : ∀ x : R, 0 ≤ m.sqrt x)
    (hpow : ∀ x y : R, 0 ≤ x → 0 ≤ m.pow x y) (hexp : ∀ x : R, 0 ≤ m.exp x)
    (s : Spring R) (hk : s.isDistanceLaw = true) (hfresh : s.base.warned = false)
    (calls : List (Call R)) (u v d : GCoord R) :
    0 ≤ s.constantImpl m u v d
    ∧ (s.constant m u v d).2.1 = []
    ∧ (s.constant m u v d).1 = s
    ∧ warningCount (s.run m calls).2 = 0
    ∧ (∀ o, o ∈ (s.run m calls).2 → o.1 = [])
    ∧ (s.run m calls).1.base.warned = false := by
  have h0 := distanceLaw_constantImpl_nonneg m hsqrt hpow hexp s hk u v d
  have hr := distanceLaw_run_quiet m hsqrt hpow hexp s hk calls
  refine ⟨h0, ?_, spring_constant_eq_self m s u v d (Or.inl (not_lt.mpr h0)),
    warningCount_eq_zero _ hr.2, hr.2, hr.1.trans hfresh⟩
  rw [spring_constant_cerr, if_neg]
  intro h
  exact absurd h.1 (not_lt.mpr h0)

/-- Witness for C20 over the reals: a default `DistanceWeight`, asked twice
and rebound in between. -/
theorem C20_distance_laws_never_warn_witness :
    warningCount ((Spring.distanceWeight (DistanceWeight.initDefault : DistanceWeight ℝ)).run
        ⟨Real.sqrt, fun x y => x ^ y, Real.exp⟩
        [.constant ⟨0, 0, 0⟩ ⟨3, 4, 0⟩ ⟨3, 4, 0⟩, .setParams [3],
          .constant ⟨0, 0, 0⟩ ⟨0, 0, 0⟩ ⟨0, 0, 0⟩]).2 = 0 :=
  (C20_distance_laws_never_warn (⟨Real.sqrt, fun x y => x ^ y, Real.exp⟩ : Libm ℝ)
    Real.sqrt_nonneg (fun _ y hx => Real.rpow_nonneg hx y) (fun x => (Real.exp_pos x).le)
    (Spring.distanceWeight DistanceWeight.initDefault) rfl rfl
    [.constant ⟨0, 0, 0⟩ ⟨3, 4, 0⟩ ⟨3, 4, 0⟩, .setParams [3],
      .constant ⟨0, 0, 0⟩ ⟨0, 0, 0⟩ ⟨0, 0, 0⟩] ⟨0, 0, 0⟩ ⟨0, 0, 0⟩ ⟨0, 0, 0⟩).2.2.2.1

end Claims

end ENM

namespace loos

/-! ## Lemmas on the hybrid-36 loops -/

section Lemmas

theorem toNat_ofNat_small (k : Nat) (h : k < 256) : (Char.ofNat k).toNat = k := by
  have hv : k.isValidChar := Or.inl (by omega)
  simp only [Char.ofNat, hv, Char.toNat, Char.ofNatAux, dite_true]
  rfl

theorem digitChar_toNat (c : Nat) (b d : Int) (h0 : 0 ≤ d % b) (h36 : d % b < 36)
    (hc : c ≤ 87) :
    (digitChar c b d).toNat
      = (d % b).toNat + (if (d % b).toNat > 9 then c else 48) := by
  have hx : (d % b).toNat < 36 := by omega
  have h1 : (d % b).toNat % 256 = (d % b).toNat := Nat.mod_eq_of_lt (by omega)
  have h48 : '0'.toNat = 48 := rfl
  simp only [digitChar, h1, h48]
  have h2 : (d % b).toNat + (if (d % b).toNat > 9 then c else 48) < 256 := by
    split <;> omega
  rw [Nat.mod_eq_of_lt h2]
  exact toNat_ofNat_small _ h2

/-- What the parsing loop reads back from a character written in base 10. -/
theorem charValue_digitChar_decimal (d : Int) :
    charValue 97 (digitChar 48 10 d) = d % 10
    ∧ 48 ≤ (digitChar 48 10 d).toNat ∧ (digitChar 48 10 d).toNat ≤ 57 := by
  have h0 : 0 ≤ d % 10 := Int.emod_nonneg d (by norm_num)
  have h1 : d % 10 < 10 := Int.emod_lt_of_pos d (by norm_num)
  have hc := digitChar_toNat 48 10 d h0 (by omega) (by norm_num)
  have h9 : ¬ (d % 10).toNat > 9 := by omega
  rw [if_neg h9] at hc
  have h48 : ('0'.toNat : Int) = 48 := rfl
  refine ⟨?_, by omega, by omega⟩
  unfold charValue
  rw [hc, h48, if_neg (by omega)]
  omega

/-- What the parsing loop reads back from a character written in base 36
with upper-case letters. -/
theorem charValue_digitChar_upper (d : Int) :
    charValue 65 (digitChar 55 36 d) = d % 36
    ∧ (10 ≤ d % 36 → 65 ≤ (digitChar 55 36 d).toNat ∧ (digitChar 55 36 d).toNat ≤ 90) := by
  have h0 : 0 ≤ d % 36 := Int.emod_nonneg d (by norm_num)
  have h1 : d % 36 < 36 := Int.emod_lt_of_pos d (by norm_num)
  have hc := digitChar_toNat 55 36 d h0 h1 (by norm_num)
  have h48 : ('0'.toNat : Int) = 48 := rfl
  by_cases h9 : (d % 36).toNat > 9
  · rw [if_pos h9] at hc
    refine ⟨?_, fun _ => by omega⟩
    unfold charValue
    rw [hc, if_pos (by omega)]
    omega
  · rw [if_neg h9] at hc
    refine ⟨?_, fun h => by omega⟩
    unfold charValue
    rw [hc, h48, if_neg (by omega)]
    omega

/-- What the parsing loop reads back from a character written in base 36
with lower-case letters. -/
theorem charValue_digitChar_lower (d : Int) :
    charValue 97 (digitChar 87 36 d) = d % 36
    ∧ (10 ≤ d % 36 → 97 ≤ (digitChar 87 36 d).toNat ∧ (digitChar 87 36 d).toNat ≤ 122) := by
  have h0 : 0 ≤ d % 36 := Int.emod_nonneg d (by norm_num)
  have h1 : d % 36 < 36 := Int.emod_lt_of_pos d (by norm_num)
  have hc := digitChar_toNat 87 36 d h0 h1 (by norm_num)
  have h48 : ('0'.toNat : Int) = 48 := rfl
  by_cases h9 : (d % 36).toNat > 9
  · rw [if_pos h9] at hc
    refine ⟨?_, fun _ => by omega⟩
    unfold charValue
    rw [hc, if_pos (by omega)]
    omega
  · rw [if_neg h9] at hc
    refine ⟨?_, fun h => by omega⟩
    unfold charValue
    rw [hc, h48, if_neg (by omega)]
    omega

theorem digitLoop_acc (c : Nat) (b : Int) (fuel : Nat) (d : Int) (acc : List Char) :
    digitLoop c b fuel d acc = acc ++ digitLoop c b fuel d [] := by
  induction fuel generalizing d acc with
  | zero => simp [digitLoop]
  | succ f ih =>
    unfold digitLoop
    split
    · rw [ih (d / b) (acc ++ [digitChar c b d]), ih (d / b) ([] ++ [digitChar c b d])]
      simp
    · simp

theorem parseLoop_append (cb b : Int) (xs : List Char) (ch : Char) (r : Int) :
    parseLoop cb b (xs ++ [ch]) r = parseLoop cb b xs r * b + charValue cb ch := by
  induction xs generalizing r with
  | nil => simp [parseLoop]
  | cons x xs ih => simp [parseLoop, ih]

/-- The loop of `hybrid36AsString` with fuel `d` or more, read back by the
loop of `parseStringAsHybrid36` after the reversal, gives `d`. -/
theorem parseLoop_digitLoop (c : Nat) (cb b : Int) (hb : 2 ≤ b)
    (hcv : ∀ d : Int, charValue cb (digitChar c b d) = d % b)
    (fuel : Nat) (d : Int) (hd : 0 ≤ d) (hf : d.toNat ≤ fuel) :
    parseLoop cb b (digitLoop c b fuel d []).reverse 0 = d := by
  induction fuel generalizing d with
  | zero =>
    have : d = 0 := by omega
    subst this
    simp [digitLoop, parseLoop]
  | succ f ih =>
    unfold digitLoop
    by_cases hpos : d > 0
    · rw [if_pos hpos, digitLoop_acc]
      have hq0 : 0 ≤ d / b := Int.ediv_nonneg hd (by omega)
      have hq1 : d / b < d := Int.ediv_lt_of_lt_mul (by omega) (by nlinarith)
      have hq := ih (d / b) hq0 (by omega)
      simp only [List.nil_append, List.reverse_append, List.reverse_cons, List.reverse_nil,
        List.singleton_append]
      rw [parseLoop_append, hq, hcv]
      exact Int.ediv_add_emod' d b
    · have : d = 0 := by omega
      subst this
      simp [parseLoop]

/-- In base 10 the loop writes only the characters `0` to `9`, at most `k` of
them for a number below `10^k`. -/
theorem digitLoop_decimal (k fuel : Nat) (d : Int) (hd : 0 ≤ d) (hk : d < 10 ^ k)
    (hf : d.toNat ≤ fuel) :
    (digitLoop 48 10 fuel d []).length ≤ k
    ∧ ∀ ch, ch ∈ digitLoop 48 10 fuel d [] → 48 ≤ ch.toNat ∧ ch.toNat ≤ 57 := by
  induction fuel generalizing d k with
  | zero => simp [digitLoop]
  | succ f ih =>
    unfold digitLoop
    by_cases hpos : d > 0
    · rw [if_pos hpos, digitLoop_acc]
      cases k with
      | zero =>
        simp only [pow_zero] at hk
        omega
      | succ k =>
        have hq0 : 0 ≤ d / 10 := Int.ediv_nonneg hd (by norm_num)
        have hq1 : d / 10 < 10 ^ k :=
          Int.ediv_lt_of_lt_mul (by norm_num) (by rw [pow_succ] at hk; exact hk)
        have hq2 : d / 10 < d := Int.ediv_lt_of_lt_mul (by norm_num) (by omega)
        obtain ⟨ih1, ih2⟩ := ih k (d / 10) hq0 hq1 (by omega)
        constructor
        · simp only [List.nil_append, List.length_append, List.length_singleton]
          omega
        · intro ch hch
          simp only [List.nil_append, List.singleton_append, List.mem_cons] at hch
          rcases hch with rfl | hch
          · exact (charValue_digitChar_decimal d).2
          · exact ih2 ch hch
    · rw [if_neg hpos]
      simp

theorem digitLoop_ne_nil (c : Nat) (b : Int) (fuel : Nat) (d : Int) (hd : 0 < d)
    (hf : d.toNat ≤ fuel) : digitLoop c b fuel d [] ≠ [] := by
  cases fuel with
  | zero => omega
  | succ f =>
    unfold digitLoop
    rw [if_pos hd, digitLoop_acc]
    simp

/-- In base 36, a number from `10 * 36^k` up to `36^(k+1)` is written as
`k + 1` characters, the last one written (the leading one) being that of a
digit of 10 or more. -/
theorem digitLoop_hybrid (c : Nat) (k fuel : Nat) (d : Int) (hlo : 10 * 36 ^ k ≤ d)
    (hhi : d < 36 ^ (k + 1)) (hf : d.toNat ≤ fuel) :
    ∃ body x, digitLoop c 36 fuel d [] = body ++ [digitChar c 36 x]
      ∧ body.length = k ∧ 10 ≤ x % 36 := by
  induction k generalizing fuel d with
  | zero =>
    simp only [pow_zero, mul_one, zero_add, pow_one] at hlo hhi
    cases fuel with
    | zero => omega
    | succ f =>
      refine ⟨[], d, ?_, rfl, by omega⟩
      unfold digitLoop
      rw [if_pos (by omega)]
      have hz : d / 36 = 0 := by omega
      rw [hz]
      cases f <;> simp [digitLoop]
  | succ k ih =>
    have hp : (0 : Int) < 36 ^ k := by positivity
    cases fuel with
    | zero =>
      rw [pow_succ] at hlo
      omega
    | succ f =>
      have hq0 : 10 * 36 ^ k ≤ d / 36 := by
        apply Int.le_ediv_of_mul_le (by norm_num)
        rw [pow_succ] at hlo
        linarith
      have hq1 : d / 36 < 36 ^ (k + 1) :=
        Int.ediv_lt_of_lt_mul (by norm_num) (by rw [pow_succ] at hhi; exact hhi)
      have hd : 0 < d := by
        rw [pow_succ] at hlo
        nlinarith
      have hq2 : d / 36 < d := Int.ediv_lt_of_lt_mul (by norm_num) (by omega)
      obtain ⟨body, x, hb, hl, hx⟩ := ih f (d / 36) hq0 hq1 (by omega)
      refine ⟨digitChar c 36 d :: body, x, ?_, by simp [hl], hx⟩
      unfold digitLoop
      rw [if_pos hd, digitLoop_acc, hb]
      simp

theorem uintPred_of_pos (n : Nat) (h0 : 0 < n) : uintPred n = n - 1 := by
  unfold uintPred
  rw [if_neg (by omega)]

theorem skipLeadingWhitespace_spaces (m n : Nat) (c : Char) (rest : List Char)
    (hc : c ≠ ' ') (hm : m ≤ n) (hn : n < 4294967296) :
    skipLeadingWhitespace (List.replicate m ' ' ++ c :: rest) n = (c :: rest, n - m) := by
  induction m generalizing n with
  | zero => simp [skipLeadingWhitespace, hc]
  | succ m ih =>
    have e : List.replicate (m + 1) ' ' ++ c :: rest
        = ' ' :: (List.replicate m ' ' ++ c :: rest) := rfl
    rw [e, skipLeadingWhitespace, if_pos rfl, uintPred_of_pos n (by omega),
      ih (n - 1) (by omega) (by omega)]
    congr 1
    omega

theorem emitDigits_nonneg (n c : Nat) (b d : Int) :
    emitDigits false n c b d
      = List.replicate (n - (digitLoop c b d.toNat d []).length) ' '
          ++ (digitLoop c b d.toNat d []).reverse := by
  simp [emitDigits]

theorem parseSubstring_padded (m : Nat) (c : Char) (rest : List Char)
    (hlen : m + (rest.length + 1) ≤ 6) (h32 : c.toNat ≠ 32) (h45 : c.toNat ≠ 45) :
    parseSubstring (List.replicate m ' ' ++ c :: rest)
      = parseChunk false (c :: rest) (rest.length + 1) := by
  have hsrc : (List.replicate m ' ' ++ c :: rest).length = m + (rest.length + 1) := by
    simp only [List.length_append, List.length_replicate, List.length_cons]
  have hc : c ≠ ' ' := by
    intro h
    exact h32 (by rw [h]; rfl)
  have hneg : ¬ deref (List.replicate m ' ' ++ c :: rest) = (('-'.toNat : Nat) : Int) := by
    have h45' : (('-'.toNat : Nat) : Int) = 45 := rfl
    rw [h45']
    cases m with
    | zero =>
      simp only [List.replicate_zero, List.nil_append, deref]
      omega
    | succ m =>
      have e : List.replicate (m + 1) ' ' ++ c :: rest
          = ' ' :: (List.replicate m ' ' ++ c :: rest) := rfl
      rw [e]
      simp only [deref]
      have : (' '.toNat : Int) = 32 := rfl
      omega
  have hskip := skipLeadingWhitespace_spaces m (m + (rest.length + 1)) c rest hc
    (Nat.le_add_right _ _) (by omega)
  unfold parseSubstring
  simp only [decide_eq_false hneg, Bool.false_eq_true, if_false, hsrc, hskip,
    Nat.add_sub_cancel_left]

/-- The parser on a field of `n` characters made of `m` spaces and then a
text that starts with a character other than a space or a minus sign: the
spaces are skipped, `n` is brought down to the length of the text, and the
first character of the text decides the chunk. -/
theorem parse_padded (m n : Nat) (c : Char) (rest : List Char)
    (hlen : m + (rest.length + 1) = n) (hn : n ≤ 6)
    (h32 : c.toNat ≠ 32) (h45 : c.toNat ≠ 45) :
    parseStringAsHybrid36 (List.replicate m ' ' ++ c :: rest) 0 n
      = parseChunk false (c :: rest) (rest.length + 1) := by
  have hn0 : n ≠ 0 := by omega
  have hsrc : (List.replicate m ' ' ++ c :: rest).length = n := by
    simp only [List.length_append, List.length_replicate, List.length_cons]
    exact hlen
  have hmod : ¬ (0 + n) % 4294967296 > n := by omega
  have htake : List.take n (List.replicate m ' ' ++ c :: rest)
      = List.replicate m ' ' ++ c :: rest := List.take_of_length_le (le_of_eq hsrc)
  unfold parseStringAsHybrid36
  simp only [if_neg hn0, hsrc, if_neg hmod, if_neg (not_lt.mpr hn), Nat.not_lt_zero,
    if_false, List.drop_zero, htake]
  exact parseSubstring_padded m c rest (by omega) h32 h45

theorem parseChunk_decimal (si : List Char) (k : Nat) (h : deref si < 65) :
    parseChunk false si k = .ok (parseLoop 97 10 si 0) := by
  have ha : (('a'.toNat : Nat) : Int) = 97 := rfl
  have hA : (('A'.toNat : Nat) : Int) = 65 := rfl
  unfold parseChunk
  rw [ha, hA, if_neg (by omega), if_neg (by omega)]
  simp [parseTail]

theorem parseChunk_upper (si : List Char) (k : Nat) (p10 p36 : Int)
    (h1 : 65 ≤ deref si) (h2 : deref si < 97)
    (h10 : pow10[k]? = some p10) (h36 : pow36[uintPred k]? = some p36) :
    parseChunk false si k = .ok (parseLoop 65 36 si 0 + (p10 - 10 * p36)) := by
  have ha : (('a'.toNat : Nat) : Int) = 97 := rfl
  have hA : (('A'.toNat : Nat) : Int) = 65 := rfl
  unfold parseChunk
  rw [ha, hA, if_neg (by omega), if_pos (by omega), h10, h36]
  simp [parseTail]

theorem parseChunk_lower (si : List Char) (k : Nat) (p10 p36 : Int)
    (h1 : 97 ≤ deref si)
    (h10 : pow10[k]? = some p10) (h36 : pow36[uintPred k]? = some p36) :
    parseChunk false si k = .ok (parseLoop 97 36 si 0 + (p10 + 16 * p36)) := by
  have ha : (('a'.toNat : Nat) : Int) = 97 := rfl
  unfold parseChunk
  rw [ha, if_pos (by omega), h10, h36]
  simp [parseTail]

/-- The two table entries read for a width from 1 to 5. -/
theorem tables_of_width (n : Nat) (h1 : 1 ≤ n) (h5 : n ≤ 5) :
    pow10[n]? = some ((10 : Int) ^ n) ∧ pow36[uintPred n]? = some ((36 : Int) ^ (n - 1)) := by
  interval_cases n <;> exact ⟨rfl, rfl⟩

/-- What `hybrid36AsString` returns for a width from 1 to 5 and a number from
0 up to the bound: the digits of the chunk the number falls in. -/
theorem hybrid36AsString_nonneg (n : Nat) (d : Int) (h1 : 1 ≤ n) (h5 : n ≤ 5) (hd0 : 0 ≤ d)
    (hd : d < 10 ^ n + 52 * 36 ^ (n - 1)) :
    hybrid36AsString d n
      = .ok (if d ≥ 10 ^ n + 36 ^ (n - 1) * 26 then
              emitDigits false n 87 36 (d - (10 ^ n + 36 ^ (n - 1) * 26) + 10 * 36 ^ (n - 1))
            else if d ≥ 10 ^ n then
              emitDigits false n 55 36 (d - 10 ^ n + 10 * 36 ^ (n - 1))
            else emitDigits false n 48 10 d) := by
  obtain ⟨t10, t36⟩ := tables_of_width n h1 h5
  have hneg : ¬ d < 0 := by omega
  have e1 : 'a'.toNat - 10 = 87 := rfl
  have e2 : 'A'.toNat - 10 = 55 := rfl
  have e3 : '0'.toNat = 48 := rfl
  unfold hybrid36AsString
  simp only [if_neg (show ¬ n > 6 by omega), t10, t36, if_neg hneg, decide_eq_false hneg,
    if_neg (not_le.mpr hd), e1, e2, e3]
  split
  · rfl
  · split <;> rfl

/-- Round trip inside the decimal chunk. -/
theorem roundtrip_decimal (n : Nat) (d : Int) (hn : n ≤ 5) (hd1 : 1 ≤ d)
    (hd : d < 10 ^ n) :
    (emitDigits false n 48 10 d).length = n
    ∧ parseStringAsHybrid36 (emitDigits false n 48 10 d) 0 n = .ok d := by
  obtain ⟨hlen, hch⟩ := digitLoop_decimal n d.toNat d (by omega) hd (le_refl _)
  have hne := digitLoop_ne_nil 48 10 d.toNat d (by omega) (le_refl _)
  rw [emitDigits_nonneg]
  cases hr : (digitLoop 48 10 d.toNat d []).reverse with
  | nil =>
    rw [List.reverse_eq_nil_iff] at hr
    exact absurd hr hne
  | cons c rest =>
    have hmem : c ∈ digitLoop 48 10 d.toNat d [] := by
      rw [← List.mem_reverse, hr]
      exact List.mem_cons_self c rest
    have hc := hch c hmem
    have hl : rest.length + 1 = (digitLoop 48 10 d.toNat d []).length := by
      have h := congrArg List.length hr
      rw [List.length_reverse, List.length_cons] at h
      exact h.symm
    have hsum : n - (digitLoop 48 10 d.toNat d []).length + (rest.length + 1) = n := by
      omega
    constructor
    · simp only [List.length_append, List.length_replicate, List.length_cons]
      exact hsum
    · rw [parse_padded _ n c rest hsum (by omega) (by omega) (by omega),
        parseChunk_decimal _ _ (by show (c.toNat : Int) < 65; omega), ← hr,
        parseLoop_digitLoop 48 97 10 (by norm_num)
          (fun x => (charValue_digitChar_decimal x).1) d.toNat d (by omega) (le_refl _)]

/-- The text written for a number of the upper-case or lower-case chunk: `n`
characters, the first one that of a digit of 10 or more. -/
theorem emitDigits_hybrid (n c : Nat) (e : Int) (hn1 : 1 ≤ n)
    (hlo : 10 * 36 ^ (n - 1) ≤ e) (hhi : e < 36 * 36 ^ (n - 1)) :
    ∃ x rest, emitDigits false n c 36 e = digitChar c 36 x :: rest
      ∧ rest.length + 1 = n ∧ 10 ≤ x % 36
      ∧ digitChar c 36 x :: rest = (digitLoop c 36 e.toNat e []).reverse := by
  have hhi' : e < 36 ^ (n - 1 + 1) := by
    rw [pow_succ]
    linarith
  obtain ⟨body, x, hb, hl, hx⟩ := digitLoop_hybrid c (n - 1) e.toNat e hlo hhi' (le_refl _)
  refine ⟨x, body.reverse, ?_, by rw [List.length_reverse, hl]; omega, hx, ?_⟩
  · rw [emitDigits_nonneg, hb]
    have : n - (body ++ [digitChar c 36 x]).length = 0 := by
      rw [List.length_append, List.length_singleton, hl]
      omega
    rw [this]
    simp
  · rw [hb]
    simp

/-- Round trip inside the upper-case chunk. -/
theorem roundtrip_upper (n : Nat) (d : Int) (hn1 : 1 ≤ n) (hn : n ≤ 5)
    (hlo : 10 ^ n ≤ d) (hhi : d < 10 ^ n + 36 ^ (n - 1) * 26) :
    (emitDigits false n 55 36 (d - 10 ^ n + 10 * 36 ^ (n - 1))).length = n
    ∧ parseStringAsHybrid36 (emitDigits false n 55 36 (d - 10 ^ n + 10 * 36 ^ (n - 1))) 0 n
        = .ok d := by
  obtain ⟨t10, t36⟩ := tables_of_width n hn1 hn
  have he0 : 10 * (36 : Int) ^ (n - 1) ≤ d - 10 ^ n + 10 * 36 ^ (n - 1) := by linarith
  obtain ⟨x, rest, hs, hl, hx, hrev⟩ := emitDigits_hybrid n 55 _ hn1 he0 (by linarith)
  have hc := (charValue_digitChar_upper x).2 hx
  rw [hs]
  refine ⟨by rw [List.length_cons]; exact hl, ?_⟩
  have hpad := parse_padded 0 n (digitChar 55 36 x) rest (by omega) (by omega)
    (by omega) (by omega)
  simp only [List.replicate_zero, List.nil_append] at hpad
  rw [hpad, hl, parseChunk_upper _ n _ _
      (by show (65 : Int) ≤ ((digitChar 55 36 x).toNat : Int); omega)
      (by show ((digitChar 55 36 x).toNat : Int) < 97; omega) t10 t36,
    hrev, parseLoop_digitLoop 55 65 36 (by norm_num)
      (fun y => (charValue_digitChar_upper y).1) _ _ (by linarith) (le_refl _)]
  congr 1
  ring

/-- Round trip inside the lower-case chunk. -/
theorem roundtrip_lower (n : Nat) (d : Int) (hn1 : 1 ≤ n) (hn : n ≤ 5)
    (hlo : 10 ^ n + 36 ^ (n - 1) * 26 ≤ d) (hhi : d < 10 ^ n + 52 * 36 ^ (n - 1)) :
    (emitDigits false n 87 36
        (d - (10 ^ n + 36 ^ (n - 1) * 26) + 10 * 36 ^ (n - 1))).length = n
    ∧ parseStringAsHybrid36 (emitDigits false n 87 36
        (d - (10 ^ n + 36 ^ (n - 1) * 26) + 10 * 36 ^ (n - 1))) 0 n = .ok d := by
  obtain ⟨t10, t36⟩ := tables_of_width n hn1 hn
  have he0 : 10 * (36 : Int) ^ (n - 1)
      ≤ d - (10 ^ n + 36 ^ (n - 1) * 26) + 10 * 36 ^ (n - 1) := by linarith
  obtain ⟨x, rest, hs, hl, hx, hrev⟩ := emitDigits_hybrid n 87 _ hn1 he0 (by linarith)
  have hc := (charValue_digitChar_lower x).2 hx
  rw [hs]
  refine ⟨by rw [List.length_cons]; exact hl, ?_⟩
  have hpad := parse_padded 0 n (digitChar 87 36 x) rest (by omega) (by omega)
    (by omega) (by omega)
  simp only [List.replicate_zero, List.nil_append] at hpad
  rw [hpad, hl, parseChunk_lower _ n _ _
      (by show (97 : Int) ≤ ((digitChar 87 36 x).toNat : Int); omega) t10 t36,
    hrev, parseLoop_digitLoop 87 97 36 (by norm_num)
      (fun y => (charValue_digitChar_lower y).1) _ _ (by linarith) (le_refl _)]
  congr 1
  ring

/-- Encoding and parsing back a positive number below the bound, for a width
from 1 to 5. -/
theorem roundtrip_positive (n : Nat) (d : Int) (hn1 : 1 ≤ n) (hn5 : n ≤ 5)
    (hd1 : 1 ≤ d) (hd : d < 10 ^ n + 52 * 36 ^ (n - 1)) :
    ∃ s, hybrid36AsString d n = .ok s ∧ s.length = n
      ∧ parseStringAsHybrid36 s 0 n = .ok d := by
  rw [hybrid36AsString_nonneg n d hn1 hn5 (by omega) hd]
  refine ⟨_, rfl, ?_⟩
  split
  · exact roundtrip_lower n d hn1 hn5 (by assumption) hd
  · split
    · exact roundtrip_upper n d hn1 hn5 (by assumption) (by omega)
    · exact roundtrip_decimal n d hn5 hd1 (by omega)

/-- The string written for zero is `n` spaces. -/
theorem hybrid36AsString_zero (n : Nat) (hn1 : 1 ≤ n) (hn5 : n ≤ 5) :
    hybrid36AsString 0 n = .ok (List.replicate n ' ') := by
  have hp : (0 : Int) < 10 ^ n := by positivity
  have hq : (0 : Int) < 36 ^ (n - 1) := by positivity
  rw [hybrid36AsString_nonneg n 0 hn1 hn5 (le_refl 0) (by linarith),
    if_neg (by linarith), if_neg (by linarith), emitDigits_nonneg]
  simp [digitLoop]

/-- For a width from 1 to 5 and a number from 0 up to the bound, the string
written has exactly `n` characters. -/
theorem hybrid36AsString_length_nonneg (n : Nat) (d : Int) (hn1 : 1 ≤ n) (hn5 : n ≤ 5)
    (hd0 : 0 ≤ d) (hd : d < 10 ^ n + 52 * 36 ^ (n - 1)) :
    ∃ s, hybrid36AsString d n = .ok s ∧ s.length = n := by
  by_cases hz : d = 0
  · subst hz
    exact ⟨_, hybrid36AsString_zero n hn1 hn5, List.length_replicate n ' '⟩
  · obtain ⟨s, h1, h2, _⟩ := roundtrip_positive n d hn1 hn5 (by omega) hd
    exact ⟨s, h1, h2⟩

end Lemmas

/-! ## The claims on hybrid-36 numbers -/

section Claims

/-- C15: hybrid-36 round trip. For a width `n` from 1 to 5 and an integer `d`
with `1 <= d < 10^n + 52*36^(n-1)`, `hybrid36AsString(d, n)` returns a string
of `n` characters, and `parseStringAsHybrid36` of that string, from position
0 over `n` characters, returns `d`; this in each of the three chunks
(decimal, upper-case base 36, lower-case base 36). -/
theorem C15_hybrid36_round_trip (n : Nat) (d : Int) (hn1 : 1 ≤ n) (hn5 : n ≤ 5)
    (hd1 : 1 ≤ d) (hd : d < 10 ^ n + 52 * 36 ^ (n - 1)) :
    ∃ s, hybrid36AsString d n = .ok s ∧ s.length = n
      ∧ parseStringAsHybrid36 s 0 n = .ok d :=
  roundtrip_positive n d hn1 hn5 hd1 hd

/-- Witness for C15: width 4 and the number 1223056, the first of the
lower-case chunk, written `a000`. -/
theorem C15_hybrid36_round_trip_witness :
    ∃ s, hybrid36AsString 1223056 4 = .ok s ∧ s.length = 4
      ∧ parseStringAsHybrid36 s 0 4 = .ok 1223056 :=
  C15_hybrid36_round_trip 4 1223056 (by decide) (by decide) (by decide) (by decide)

/-- C16, evaluated on the code: `hybrid36AsString(-5, 4)` is `"  -5"`, the
sign after the padding, and `parseStringAsHybrid36` of it is `-25`: the
parser looks for the sign before it skips the spaces, then reads `-` as the
digit `'-' - '0' = -3`. And `hybrid36AsString(-1000, 4)` is the five
characters `"-1000"`, of which the parser, asked for 4 characters, reads
`"-100"` and returns `-100`. Only when sign and digits fill the width exactly
does the value come back: `hybrid36AsString(-5, 2)` is `"-5"` and is parsed
as `-5`. -/
theorem C16_negative_round_trip_on_code :
    hybrid36AsString (-5) 4 = .ok [' ', ' ', '-', '5']
    ∧ parseStringAsHybrid36 [' ', ' ', '-', '5'] 0 4 = .ok (-25)
    ∧ hybrid36AsString (-1000) 4 = .ok ['-', '1', '0', '0', '0']
    ∧ parseStringAsHybrid36 ['-', '1', '0', '0', '0'] 0 4 = .ok (-100)
    ∧ hybrid36AsString (-5) 2 = .ok ['-', '5']
    ∧ parseStringAsHybrid36 ['-', '5'] 0 2 = .ok (-5) :=
  ⟨rfl, rfl, rfl, rfl, rfl, rfl⟩

/-- C18, evaluated on the code: `hybrid36AsString(-5, 1)` has two characters
and `hybrid36AsString(-12345, 5)` has six, one more than the width, the sign
coming on top of digits that already fill the field; whereas for a width
from 1 to 5 and every number from 0 up to the bound the string has exactly
`n` characters. -/
theorem C18_width_on_code :
    hybrid36AsString (-5) 1 = .ok ['-', '5']
    ∧ hybrid36AsString (-12345) 5 = .ok ['-', '1', '2', '3', '4', '5']
    ∧ hybrid36AsString (-5) 4 = .ok [' ', ' ', '-', '5']
    ∧ (∀ (n : Nat) (d : Int), 1 ≤ n → n ≤ 5 → 0 ≤ d → d < 10 ^ n + 52 * 36 ^ (n - 1) →
        ∃ s, hybrid36AsString d n = .ok s ∧ s.length = n) :=
  ⟨rfl, rfl, rfl, hybrid36AsString_length_nonneg⟩

/-- C19, evaluated on the code: the width 6 passes the guard `n > 6` of
`hybrid36AsString`, which then reads `pow10[6]`, past the end of the table
of six entries; the width 0 passes it too and reads `pow36[n-1]` at the
index `4294967295`; and `parseStringAsHybrid36` on the 6-character field
`A00000` reads `pow10[6]`. For a width from 1 to 5 both reads are inside the
tables. -/
theorem C19_table_reads_on_code :
    pow10.length = 6 ∧ pow36.length = 6
    ∧ hybrid36AsString 1 6 = .error (.out_of_bounds "pow10" 6)
    ∧ hybrid36AsString 1 0 = .error (.out_of_bounds "pow36" 4294967295)
    ∧ parseStringAsHybrid36 ['A', '0', '0', '0', '0', '0'] 0 6
        = .error (.out_of_bounds "pow10" 6)
    ∧ (∀ n : Nat, 1 ≤ n → n ≤ 5 →
        pow10[n]? = some ((10 : Int) ^ n)
        ∧ pow36[uintPred n]? = some ((36 : Int) ^ (n - 1))) :=
  ⟨rfl, rfl, rfl, rfl, rfl, tables_of_width⟩

end Claims

end loos
